import Mathlib

/-!
# scripts/compile_sol.js

A shallow embedding of the build script `scripts/compile_sol.js` and of the parts of its
runtime it touches (`JSON.stringify`, property reads, `fs`, `path.join`, `console`,
`process.exit`), followed by the properties of the script that the specification states.

Conventions of the embedding.

* A JavaScript value that came out of `JSON.parse` is a `Json`; `undefined` is `none` in
  `Option Json`.  Numbers are the safe integers (`Int`, bounded by `Json.wf`); fractional,
  exponent-form and non-finite doubles and negative zero are outside the embedding.
* Strings are sequences of Unicode scalar values (`String`); lone surrogates are outside the
  embedding.
* The file system is a finite map from paths (lists of components below the root) to nodes.
* The external compiler is a parameter: `oracle request` is `JSON.parse (solc.compile request)`,
  with `none` standing for a response that is not JSON text.
-/

namespace CompileSol

/-! ## JavaScript values -/

/-- A value produced by `JSON.parse`. Object members are kept in property order. -/
inductive Json where
  | null
  | bool (b : Bool)
  | num (n : Int)
  | str (s : String)
  | arr (items : List Json)
  | obj (members : List (String × Json))

/-- A JavaScript value as the script sees it: `none` is `undefined`. -/
abbrev JsVal := Option Json

/-- The exceptions the script can meet. `systemError` carries the errno name of an `fs` failure. -/
inductive JsError where
  | typeError
  | syntaxError
  | systemError (code : String)
  deriving DecidableEq

/-- ToBoolean: `undefined`, `null`, `false`, `0` and the empty string are falsy; every array and
every object, the empty ones included, is truthy. -/
def truthy : JsVal → Bool
  | none => false
  | some .null => false
  | some (.bool b) => b
  | some (.num n) => decide (n ≠ 0)
  | some (.str s) => decide (s ≠ "")
  | some (.arr _) => true
  | some (.obj _) => true

/-- Own-property lookup in an object's member list. -/
def lookupKey (name : String) : List (String × Json) → JsVal
  | [] => none
  | (k, v) :: rest => if k = name then some v else lookupKey name rest

/-- Property read `v[name]`, for the names the script reads (`errors`, `contracts`,
`Counter.sol`, `SimpleCounter`, `abi`, `evm`, `bytecode`, `object`), none of which is an
inherited member of a primitive wrapper, of `Array.prototype` or of `Object.prototype`:
reading from `undefined` or `null` throws a TypeError, an object yields its own property or
`undefined`, anything else yields `undefined`. -/
def getProp (v : JsVal) (name : String) : Except JsError JsVal :=
  match v with
  | none => .error .typeError
  | some .null => .error .typeError
  | some (.obj members) => .ok (lookupKey name members)
  | some _ => .ok none

/-! ## JSON.stringify (ECMAScript SerializeJSONProperty) -/

/-- One lowercase hexadecimal digit. -/
def hexDigit (d : Nat) : Char :=
  if d < 10 then Char.ofNat (48 + d) else Char.ofNat (87 + d)

/-- UnicodeEscape: a backslash, `u` and four lowercase hexadecimal digits. -/
def unicodeEscape (c : Char) : List Char :=
  ['\\', 'u', hexDigit (c.toNat / 4096 % 16), hexDigit (c.toNat / 256 % 16),
    hexDigit (c.toNat / 16 % 16), hexDigit (c.toNat % 16)]

/-- QuoteJSONString on one character: the seven two-character escapes, a unicode escape for the
other control characters, every other character verbatim. -/
def quoteChar (c : Char) : List Char :=
  if c = '\x08' then ['\\', 'b']
  else if c = '\t' then ['\\', 't']
  else if c = '\n' then ['\\', 'n']
  else if c = '\x0c' then ['\\', 'f']
  else if c = '\r' then ['\\', 'r']
  else if c = '"' then ['\\', '"']
  else if c = '\\' then ['\\', '\\']
  else if c.toNat < 32 then unicodeEscape c
  else [c]

/-- The escaped characters of a string, without the enclosing quotes. -/
def quoteBody : List Char → List Char
  | [] => []
  | c :: cs => quoteChar c ++ quoteBody cs

/-- QuoteJSONString. -/
def quoteJSONString (s : String) : List Char :=
  '"' :: (quoteBody s.data ++ ['"'])

/-- Decimal digits of a natural number, most significant first (`fuel` bounds the digit count). -/
def digitsAux : Nat → Nat → List Char → List Char
  | 0, _, acc => acc
  | fuel + 1, n, acc =>
    if n < 10 then Char.ofNat (48 + n) :: acc
    else digitsAux fuel (n / 10) (Char.ofNat (48 + n % 10) :: acc)

/-- Decimal rendering of a natural number. -/
def natToString (n : Nat) : List Char := digitsAux (n + 1) n []

/-- Number::toString on a safe integer. -/
def numberToString (n : Int) : List Char :=
  if n < 0 then '-' :: natToString n.natAbs else natToString n.natAbs

/-- Concatenation of the parts with a separator between neighbours. -/
def joinWith (sep : List Char) : List (List Char) → List Char
  | [] => []
  | [x] => x
  | x :: y :: rest => x ++ sep ++ joinWith sep (y :: rest)

mutual
/-- SerializeJSONProperty with SerializeJSONArray and SerializeJSONObject inlined: `gap` is the
indentation unit (empty for the compact form) and `indent` the current indentation. -/
def serializeJSONProperty (gap indent : List Char) : Json → List Char
  | .null => ['n', 'u', 'l', 'l']
  | .bool true => ['t', 'r', 'u', 'e']
  | .bool false => ['f', 'a', 'l', 's', 'e']
  | .num n => numberToString n
  | .str s => quoteJSONString s
  | .arr items =>
    match serializeElements gap (indent ++ gap) items with
    | [] => ['[', ']']
    | p :: ps =>
      if gap = [] then '[' :: (joinWith [','] (p :: ps) ++ [']'])
      else '[' :: '\n' :: ((indent ++ gap)
        ++ joinWith (',' :: '\n' :: (indent ++ gap)) (p :: ps) ++ '\n' :: indent ++ [']'])
  | .obj members =>
    match serializeMembers gap (indent ++ gap) members with
    | [] => ['{', '}']
    | p :: ps =>
      if gap = [] then '{' :: (joinWith [','] (p :: ps) ++ ['}'])
      else '{' :: '\n' :: ((indent ++ gap)
        ++ joinWith (',' :: '\n' :: (indent ++ gap)) (p :: ps) ++ '\n' :: indent ++ ['}'])
/-- The serialised elements of an array (the list `partial` of SerializeJSONArray). -/
def serializeElements (gap indent : List Char) : List Json → List (List Char)
  | [] => []
  | x :: xs => serializeJSONProperty gap indent x :: serializeElements gap indent xs
/-- The serialised members of an object (the list `partial` of SerializeJSONObject). -/
def serializeMembers (gap indent : List Char) : List (String × Json) → List (List Char)
  | [] => []
  | (k, v) :: kvs =>
    (quoteJSONString k ++ (if gap = [] then [':'] else [':', ' '])
      ++ serializeJSONProperty gap indent v) :: serializeMembers gap indent kvs
end

/-- The call `JSON.stringify(v, null, space)` on a defined value: the gap is `space` blanks, at most ten. -/
def stringifyValue (v : Json) (space : Nat) : String :=
  String.mk (serializeJSONProperty (List.replicate (min space 10) ' ') [] v)

/-- The call `JSON.stringify(v, null, space)`: `undefined` for `undefined`, a string otherwise. -/
def jsonStringify (v : JsVal) (space : Nat) : JsVal :=
  match v with
  | none => none
  | some j => some (.str (stringifyValue j space))

/-! ## JSON.parse -/

/-- JSON white space. -/
def isWs (c : Char) : Bool := c = ' ' || c = '\t' || c = '\n' || c = '\r'

/-- Drop leading white space. -/
def skipWs : List Char → List Char
  | [] => []
  | c :: cs => if isWs c then skipWs cs else c :: cs

/-- Value of a hexadecimal digit of either case. -/
def hexVal (c : Char) : Option Nat :=
  if 48 ≤ c.toNat ∧ c.toNat ≤ 57 then some (c.toNat - 48)
  else if 97 ≤ c.toNat ∧ c.toNat ≤ 102 then some (c.toNat - 87)
  else if 65 ≤ c.toNat ∧ c.toNat ≤ 70 then some (c.toNat - 55)
  else none

/-- The character a two-character escape stands for (the escape letter is given). -/
def unescape (e : Char) : Option Char :=
  if e = '"' then some '"'
  else if e = '\\' then some '\\'
  else if e = '/' then some '/'
  else if e = 'b' then some '\x08'
  else if e = 'f' then some '\x0c'
  else if e = 'n' then some '\n'
  else if e = 'r' then some '\r'
  else if e = 't' then some '\t'
  else none

/-- The characters of a JSON string up to its closing quote, and the text after the quote.
A unicode escape of a surrogate code unit is rejected: it is outside the embedding. -/
def parseStringBody : List Char → Option (List Char × List Char)
  | [] => none
  | c :: cs =>
    if c = '"' then some ([], cs)
    else if c = '\\' then
      match cs with
      | [] => none
      | e :: r =>
        if e = 'u' then
          match r with
          | h1 :: h2 :: h3 :: h4 :: r' =>
            match hexVal h1, hexVal h2, hexVal h3, hexVal h4 with
            | some a, some b, some c, some d =>
              if 0xD800 ≤ ((a * 16 + b) * 16 + c) * 16 + d
                  ∧ ((a * 16 + b) * 16 + c) * 16 + d ≤ 0xDFFF then none
              else
                match parseStringBody r' with
                | some (s, t) => some (Char.ofNat (((a * 16 + b) * 16 + c) * 16 + d) :: s, t)
                | none => none
            | _, _, _, _ => none
          | _ => none
        else
          match unescape e with
          | some ch =>
            match parseStringBody r with
            | some (s, t) => some (ch :: s, t)
            | none => none
          | none => none
    else if c.toNat < 32 then none
    else
      match parseStringBody cs with
      | some (s, t) => some (c :: s, t)
      | none => none

/-- Decimal digit test. -/
def isDigit (c : Char) : Bool := decide (48 ≤ c.toNat) && decide (c.toNat ≤ 57)

/-- The longest prefix of decimal digits, and the rest. -/
def takeDigits : List Char → List Char × List Char
  | [] => ([], [])
  | c :: cs =>
    if isDigit c then (c :: (takeDigits cs).1, (takeDigits cs).2) else ([], c :: cs)

/-- Value of a digit sequence. -/
def digitsValue (ds : List Char) : Nat :=
  ds.foldl (fun a c => a * 10 + (c.toNat - 48)) 0

/-- Number.MAX_SAFE_INTEGER. -/
def maxSafeInteger : Nat := 2 ^ 53 - 1

/-- The integer part of a JSON number. A leading zero before another digit is a syntax error;
a fraction, an exponent or a magnitude above `maxSafeInteger` is outside the embedding. -/
def parseUnsigned (cs : List Char) : Option (Nat × List Char) :=
  match takeDigits cs with
  | ([], _) => none
  | (d :: ds, rest) =>
    if d = '0' ∧ ds ≠ [] then none
    else if maxSafeInteger < digitsValue (d :: ds) then none
    else
      match rest with
      | [] => some (digitsValue (d :: ds), rest)
      | c :: _ =>
        if c = '.' ∨ c = 'e' ∨ c = 'E' then none
        else some (digitsValue (d :: ds), rest)

/-- A JSON number; negative zero is outside the embedding. -/
def parseNumber : List Char → Option (Json × List Char)
  | [] => none
  | c :: cs =>
    if c = '-' then
      match parseUnsigned cs with
      | some (n, rest) => if n = 0 then none else some (.num (-(n : Int)), rest)
      | none => none
    else
      match parseUnsigned (c :: cs) with
      | some (n, rest) => some (.num (n : Int), rest)
      | none => none

/-- The array index a property key denotes, if it is one: a canonical decimal numeral below
2^32 - 1. -/
def arrayIndex? (k : String) : Option Nat :=
  match k.data with
  | [] => none
  | d :: ds =>
    if (d :: ds).all isDigit ∧ ¬ (d = '0' ∧ ds ≠ []) ∧ digitsValue (d :: ds) < 2 ^ 32 - 1
    then some (digitsValue (d :: ds)) else none

/-- Own-property order of an ordinary object: `keyBefore k k'` says that the distinct keys `k`
and `k'` are listed in this order: array indices ascending first, then the other keys
(which keep their creation order). -/
def keyBefore (k k' : String) : Bool :=
  match arrayIndex? k, arrayIndex? k' with
  | some i, some j => decide (i < j)
  | some _, none => true
  | none, some _ => false
  | none, none => decide (k ≠ k')

/-- Insert a new property at its place in property order. -/
def insertProperty (k : String) (v : Json) : List (String × Json) → List (String × Json)
  | [] => [(k, v)]
  | (k', v') :: rest =>
    if keyBefore k' k then (k', v') :: insertProperty k v rest
    else (k, v) :: (k', v') :: rest

/-- Replace the value of the existing property `k`, keeping its place. -/
def replaceProperty (k : String) (v : Json) : List (String × Json) → List (String × Json)
  | [] => []
  | (k', v') :: rest =>
    if k' = k then (k, v) :: rest else (k', v') :: replaceProperty k v rest

/-- CreateDataProperty on an ordinary object. -/
def createDataProperty (o : List (String × Json)) (k : String) (v : Json) :
    List (String × Json) :=
  if (lookupKey k o).isSome then replaceProperty k v o else insertProperty k v o

/-- The object built from the members of an object literal, in text order. -/
def buildObject (members : List (String × Json)) : List (String × Json) :=
  members.foldl (fun o kv => createDataProperty o kv.1 kv.2) []

mutual
/-- One JSON value with leading white space, and the text after it. `fuel` bounds the nesting
and the element counts; the length of the text is always enough. -/
def parseValue : Nat → List Char → Option (Json × List Char)
  | 0, _ => none
  | fuel + 1, cs =>
    match skipWs cs with
    | [] => none
    | c :: r =>
      if c = 'n' then
        match r with
        | 'u' :: 'l' :: 'l' :: r' => some (.null, r')
        | _ => none
      else if c = 't' then
        match r with
        | 'r' :: 'u' :: 'e' :: r' => some (.bool true, r')
        | _ => none
      else if c = 'f' then
        match r with
        | 'a' :: 'l' :: 's' :: 'e' :: r' => some (.bool false, r')
        | _ => none
      else if c = '"' then
        match parseStringBody r with
        | some (s, r') => some (.str (String.mk s), r')
        | none => none
      else if c = '[' then
        match skipWs r with
        | [] => none
        | d :: r' =>
          if d = ']' then some (.arr [], r')
          else
            match parseElements fuel (d :: r') with
            | some (xs, r'') => some (.arr xs, r'')
            | none => none
      else if c = '{' then
        match skipWs r with
        | [] => none
        | d :: r' =>
          if d = '}' then some (.obj [], r')
          else
            match parseMembers fuel (d :: r') with
            | some (kvs, r'') => some (.obj (buildObject kvs), r'')
            | none => none
      else parseNumber (c :: r)
/-- The elements of a non-empty array up to and including the closing bracket. -/
def parseElements : Nat → List Char → Option (List Json × List Char)
  | 0, _ => none
  | fuel + 1, cs =>
    match parseValue fuel cs with
    | none => none
    | some (x, r) =>
      match skipWs r with
      | [] => none
      | d :: r' =>
        if d = ',' then
          match parseElements fuel r' with
          | some (xs, r'') => some (x :: xs, r'')
          | none => none
        else if d = ']' then some ([x], r')
        else none
/-- The members of a non-empty object, in text order, up to and including the closing brace. -/
def parseMembers : Nat → List Char → Option (List (String × Json) × List Char)
  | 0, _ => none
  | fuel + 1, cs =>
    match skipWs cs with
    | [] => none
    | q :: r =>
      if q = '"' then
        match parseStringBody r with
        | none => none
        | some (k, r1) =>
          match skipWs r1 with
          | [] => none
          | colon :: r2 =>
            if colon = ':' then
              match parseValue fuel r2 with
              | none => none
              | some (v, r3) =>
                match skipWs r3 with
                | [] => none
                | d :: r4 =>
                  if d = ',' then
                    match parseMembers fuel r4 with
                    | some (kvs, r5) => some ((String.mk k, v) :: kvs, r5)
                    | none => none
                  else if d = '}' then some ([(String.mk k, v)], r4)
                  else none
            else none
      else none
end

/-- The call `JSON.parse(text)` without a reviver: one value, white space around it, nothing else.
`none` is a SyntaxError (or a text outside the embedding). -/
def jsonParse (text : String) : Option Json :=
  match parseValue (text.data.length + 1) text.data with
  | some (v, rest) => if skipWs rest = [] then some v else none
  | none => none

/-- Keys of an object in property order: pairwise `keyBefore`. -/
def jsKeyOrder : List String → Bool
  | [] => true
  | k :: ks => ks.all (keyBefore k) && jsKeyOrder ks

mutual
/-- The values the embedding stands for: numbers are safe integers, and the members of every
object are listed in property order without a repeated key, as `JSON.parse` builds them. -/
def Json.wf : Json → Bool
  | .null => true
  | .bool _ => true
  | .num n => decide (n.natAbs ≤ maxSafeInteger)
  | .str _ => true
  | .arr items => wfElements items
  | .obj members => jsKeyOrder (members.map Prod.fst) && wfMembers members
/-- Every element is well formed. -/
def wfElements : List Json → Bool
  | [] => true
  | x :: xs => x.wf && wfElements xs
/-- Every member value is well formed. -/
def wfMembers : List (String × Json) → Bool
  | [] => true
  | (_, v) :: kvs => v.wf && wfMembers kvs
end

mutual
/-- Fuel that `parseValue` needs to read the serialisation of a value back. -/
def Json.cost : Json → Nat
  | .arr items => costElements items + 1
  | .obj members => costMembers members + 1
  | _ => 1
/-- Fuel that `parseElements` needs. -/
def costElements : List Json → Nat
  | [] => 0
  | x :: xs => max x.cost (costElements xs) + 1
/-- Fuel that `parseMembers` needs. -/
def costMembers : List (String × Json) → Nat
  | [] => 0
  | (_, v) :: kvs => max v.cost (costMembers kvs) + 1
end

/-! ## The file system (`fs`) and `path.join` -/

/-- A path: the components below the root directory. -/
abbrev Path := List String

/-- A file with its content and whether the process may read and write it, or a directory. -/
inductive Node where
  | file (content : String) (readable writable : Bool)
  | dir
  deriving DecidableEq

/-- The file system: a finite map from paths to nodes; the first entry for a path counts. -/
abbrev FileSystem := List (Path × Node)

/-- The entry stored for a path. -/
def FileSystem.find : FileSystem → Path → Option Node
  | [], _ => none
  | (q, n) :: rest, p => if q = p then some n else FileSystem.find rest p

/-- Store a node at a path, in place when the path has an entry. -/
def FileSystem.set : FileSystem → Path → Node → FileSystem
  | [], p, n => [(p, n)]
  | (q, m) :: rest, p, n =>
    if q = p then (p, n) :: rest else (q, m) :: FileSystem.set rest p n

/-- What is at a path; the root is a directory. -/
def stat (fs : FileSystem) (p : Path) : Option Node :=
  if p = [] then some .dir else fs.find p

/-- The call `path.join(base, ...segments)` with the segments already split at the separators:
`..` drops the last component, `.` and empty segments are skipped. -/
def pathJoin : Path → List String → Path
  | base, [] => base
  | base, s :: rest =>
    if s = ".." then pathJoin base.dropLast rest
    else if s = "." ∨ s = "" then pathJoin base rest
    else pathJoin (base ++ [s]) rest

/-- The call `fs.readFileSync(p, 'utf8')`. -/
def readFileSync (fs : FileSystem) (p : Path) : Except JsError String :=
  match stat fs p with
  | some (.file content true _) => .ok content
  | some (.file _ false _) => .error (.systemError "EACCES")
  | some .dir => .error (.systemError "EISDIR")
  | none => .error (.systemError "ENOENT")

/-- The call `fs.existsSync(p)`. -/
def existsSync (fs : FileSystem) (p : Path) : Bool := (stat fs p).isSome

/-- Walk down from `parent` through the components, creating the directories that are missing.
Returns the file system reached and the error that stopped the walk, if any. -/
def mkdirp (fs : FileSystem) (parent : Path) : List String → FileSystem × Option JsError
  | [] => (fs, none)
  | s :: rest =>
    match stat fs (parent ++ [s]) with
    | some .dir => mkdirp fs (parent ++ [s]) rest
    | some (.file _ _ _) =>
      (fs, some (.systemError (if rest = [] then "EEXIST" else "ENOTDIR")))
    | none => mkdirp (fs.set (parent ++ [s]) .dir) (parent ++ [s]) rest

/-- The call `fs.mkdirSync(p, { recursive: true })`. -/
def mkdirSync (fs : FileSystem) (p : Path) : FileSystem × Option JsError :=
  mkdirp fs [] p

/-- The call `fs.writeFileSync(p, data)`: the data must be a string (anything else is a TypeError, raised
before the file is opened); an existing file is overwritten, a missing one is created in its
parent directory. -/
def writeFileSync (fs : FileSystem) (p : Path) (data : JsVal) : Except JsError FileSystem :=
  match data with
  | some (.str s) =>
    match stat fs p with
    | some (.file _ r true) => .ok (fs.set p (.file s r true))
    | some (.file _ _ false) => .error (.systemError "EACCES")
    | some .dir => .error (.systemError "EISDIR")
    | none =>
      match stat fs p.dropLast with
      | some .dir => .ok (fs.set p (.file s true true))
      | some (.file _ _ _) => .error (.systemError "ENOTDIR")
      | none => .error (.systemError "ENOENT")
  | _ => .error .typeError

/-! ## The script -/

/-- One argument of a `console.error` call: a literal text or a value it prints. -/
inductive LogArg where
  | text (s : String)
  | value (v : JsVal)

/-- How the process ends: the script runs to its last line, calls `process.exit`, or dies of an
uncaught exception. -/
inductive Completion where
  | normal
  | exit (code : Nat)
  | throw (e : JsError)
  deriving DecidableEq

/-- What a run leaves behind. `stdout` and `stderr` list the `console.log` and `console.error`
calls (the runtime's own report of an uncaught exception is the `throw` completion),
`oracleCalls` the requests passed to the compiler and `written` the paths `writeFileSync` has
written, all in order. -/
structure Outcome where
  completion : Completion
  fs : FileSystem
  stdout : List String
  stderr : List (List LogArg)
  oracleCalls : List String
  written : List Path

/-- The exit code of the process: 0 after the last line, the argument of `process.exit`, and 1
for an uncaught exception. -/
def Outcome.exitCode (o : Outcome) : Nat :=
  match o.completion with
  | .normal => 0
  | .exit code => code
  | .throw _ => 1

/-- The constant `contractName`. -/
def contractName : String := "SimpleCounter"

/-- The constant `contractPath`, for the directory `dirname` of the script. -/
def contractPath (dirname : Path) : Path := pathJoin dirname ["..", "contracts", "Counter.sol"]

/-- The constant `buildDir`. -/
def buildDir (dirname : Path) : Path := pathJoin dirname ["..", "contracts", "build"]

/-- The path of the ABI artifact. -/
def abiPath (dirname : Path) : Path := pathJoin (buildDir dirname) ["Counter.abi"]

/-- The path of the bytecode artifact. -/
def binPath (dirname : Path) : Path := pathJoin (buildDir dirname) ["Counter.bin"]

/-- The object `input`. -/
def compilerInput (source : String) : Json :=
  .obj [("language", .str "Solidity"),
    ("sources", .obj [("Counter.sol", .obj [("content", .str source)])]),
    ("settings", .obj [("outputSelection",
      .obj [("*", .obj [("*", .arr [.str "abi", .str "evm.bytecode"])])])])]

/-- The text passed to `solc.compile`: `JSON.stringify(input)`. -/
def compilerRequest (source : String) : String := stringifyValue (compilerInput source) 0

/-- The lookup `output.contracts['Counter.sol'][contractName]`. -/
def lookupContract (output : Json) : Except JsError JsVal :=
  match getProp (some output) "contracts" with
  | .error e => .error e
  | .ok contracts =>
    match getProp contracts "Counter.sol" with
    | .error e => .error e
    | .ok file => getProp file contractName

/-- The read `contractData.evm.bytecode.object`. -/
def bytecodeObject (contractData : JsVal) : Except JsError JsVal :=
  match getProp contractData "evm" with
  | .error e => .error e
  | .ok evm =>
    match getProp evm "bytecode" with
    | .error e => .error e
    | .ok bytecode => getProp bytecode "object"

/-- The lines of the success report. -/
def successReport : List String :=
  ["✅ Contract compiled successfully!",
    "📁 ABI saved to: contracts/build/Counter.abi",
    "📁 Bytecode saved to: contracts/build/Counter.bin"]

/-- The directory step: `if (!fs.existsSync(buildDir)) fs.mkdirSync(buildDir, ...)`. -/
def ensureBuildDir (dirname : Path) (fs : FileSystem) : FileSystem × Option JsError :=
  if existsSync fs (buildDir dirname) then (fs, none) else mkdirSync fs (buildDir dirname)

/-- The script, top to bottom, for the script directory `dirname`, the compiler `oracle` and
the initial file system `fs`. -/
def run (dirname : Path) (oracle : String → Option Json) (fs : FileSystem) : Outcome :=
  match readFileSync fs (contractPath dirname) with
  | .error e => ⟨.throw e, fs, [], [], [], []⟩
  | .ok source =>
    match oracle (compilerRequest source) with
    | none => ⟨.throw .syntaxError, fs, [], [], [compilerRequest source], []⟩
    | some output =>
      match getProp (some output) "errors" with
      | .error e => ⟨.throw e, fs, [], [], [compilerRequest source], []⟩
      | .ok errors =>
        if truthy errors then
          ⟨.exit 1, fs, [], [[.text "Compilation errors:", .value errors]],
            [compilerRequest source], []⟩
        else
          match lookupContract output with
          | .error e => ⟨.throw e, fs, [], [], [compilerRequest source], []⟩
          | .ok contractData =>
            if !truthy contractData then
              ⟨.exit 1, fs, [],
                [[.text ("Contract " ++ contractName ++ " not found in output")]],
                [compilerRequest source], []⟩
            else
              match ensureBuildDir dirname fs with
              | (fs1, some e) => ⟨.throw e, fs1, [], [], [compilerRequest source], []⟩
              | (fs1, none) =>
                match getProp contractData "abi" with
                | .error e => ⟨.throw e, fs1, [], [], [compilerRequest source], []⟩
                | .ok abi =>
                  match writeFileSync fs1 (abiPath dirname) (jsonStringify abi 2) with
                  | .error e => ⟨.throw e, fs1, [], [], [compilerRequest source], []⟩
                  | .ok fs2 =>
                    match bytecodeObject contractData with
                    | .error e =>
                      ⟨.throw e, fs2, [], [], [compilerRequest source], [abiPath dirname]⟩
                    | .ok code =>
                      match writeFileSync fs2 (binPath dirname) code with
                      | .error e =>
                        ⟨.throw e, fs2, [], [], [compilerRequest source], [abiPath dirname]⟩
                      | .ok fs3 =>
                        ⟨.normal, fs3, successReport, [], [compilerRequest source],
                          [abiPath dirname, binPath dirname]⟩

/-- What may stand right after a serialised value: nothing, white space, a comma or a closing
bracket or brace. -/
def followsValue : List Char → Bool
  | [] => true
  | c :: _ => isWs c || decide (c = ',') || decide (c = ']') || decide (c = '\x7d')

/-! ## Conditions on the initial file system -/

/-- Whether a path holds a regular file. -/
def isFile : Option Node → Bool
  | some (.file _ _ _) => true
  | _ => false

/-- No component on the way from `parent` down through the given components is a regular file:
a recursive `mkdir` of that path cannot fail. -/
def canMkdirp (fs : FileSystem) (parent : Path) : List String → Bool
  | [] => true
  | s :: rest => !isFile (stat fs (parent ++ [s])) && canMkdirp fs (parent ++ [s]) rest

/-- The path is free, or holds a file the process may write: a write to it cannot fail once its
parent directory exists. -/
def writableTarget (fs : FileSystem) (p : Path) : Bool :=
  match stat fs p with
  | none => true
  | some (.file _ _ w) => w
  | some .dir => false

/-- The two writes of the script cannot fail on this file system once the directory step is
through: the build directory is not a regular file and both targets are writable. -/
def writesCannotFail (dirname : Path) (fs : FileSystem) : Bool :=
  !isFile (stat fs (buildDir dirname)) && writableTarget fs (abiPath dirname)
    && writableTarget fs (binPath dirname)

/-- The directory step and the two writes of the script cannot fail on this file system. -/
def ioCannotFail (dirname : Path) (fs : FileSystem) : Bool :=
  canMkdirp fs [] (buildDir dirname) && writableTarget fs (abiPath dirname)
    && writableTarget fs (binPath dirname)

/-! ## Sample inputs -/

/-- The directory of the script in the sample runs. -/
def sampleDirname : Path := ["repo", "scripts"]

/-- A checkout with the contract source and no build directory. -/
def sampleFs : FileSystem :=
  [(["repo"], .dir), (["repo", "scripts"], .dir), (["repo", "contracts"], .dir),
    (["repo", "contracts", "Counter.sol"], .file "contract SimpleCounter {}" true true)]

/-- A checkout without the contract source. -/
def sampleFsNoSource : FileSystem :=
  [(["repo"], .dir), (["repo", "scripts"], .dir), (["repo", "contracts"], .dir)]

/-- One ABI descriptor list. -/
def sampleAbi : Json :=
  .arr [.obj [("inputs", .arr []), ("name", .str "increment"), ("outputs", .arr []),
    ("stateMutability", .str "nonpayable"), ("type", .str "function")]]

/-- The entry of a compiled contract. -/
def sampleEntry : Json :=
  .obj [("abi", sampleAbi), ("evm", .obj [("bytecode", .obj [("object", .str "6080")])])]

/-- A compiler output without diagnostics that holds the target contract. -/
def sampleOutput : Json :=
  .obj [("contracts", .obj [("Counter.sol", .obj [("SimpleCounter", sampleEntry)])])]

/-- One diagnostic record. -/
def sampleDiagnostic : Json :=
  .obj [("severity", .str "warning"), ("message", .str "Unused local variable.")]

/-- A compiler output with one diagnostic, and the target contract all the same. -/
def sampleOutputWithErrors : Json :=
  .obj [("errors", .arr [sampleDiagnostic]),
    ("contracts", .obj [("Counter.sol", .obj [("SimpleCounter", sampleEntry)])])]

/-- A compiler output whose file entry holds another contract only. -/
def sampleOutputOtherContract : Json :=
  .obj [("contracts", .obj [("Counter.sol", .obj [("Counter", sampleEntry)])])]

/-- A compiler output without a `contracts` mapping: a source that declares no contract. -/
def sampleOutputNoContracts : Json :=
  .obj [("sources", .obj [("Counter.sol", .obj [("id", .num 0)])])]

/-- A compiler output with an empty `errors` array and the target contract. -/
def sampleOutputEmptyErrors : Json :=
  .obj [("errors", .arr []),
    ("contracts", .obj [("Counter.sol", .obj [("SimpleCounter", sampleEntry)])])]

/-- A compiler output whose target entry has an `abi` and no `evm`. -/
def sampleOutputNoEvm : Json :=
  .obj [("contracts", .obj [("Counter.sol", .obj [("SimpleCounter",
    .obj [("abi", sampleAbi)])])])]

/-- A compiler output whose target entry has an `abi` and an `evm` without `bytecode`. -/
def sampleOutputNoBytecode : Json :=
  .obj [("contracts", .obj [("Counter.sol", .obj [("SimpleCounter",
    .obj [("abi", .arr []), ("evm", .obj [])])])])]

/-! ## Paths -/

theorem contractPath_eq (dirname : Path) :
    contractPath dirname = dirname.dropLast ++ ["contracts", "Counter.sol"] := by
  simp [contractPath, pathJoin]

theorem buildDir_eq (dirname : Path) :
    buildDir dirname = dirname.dropLast ++ ["contracts", "build"] := by
  simp [buildDir, pathJoin]

theorem abiPath_eq (dirname : Path) :
    abiPath dirname = buildDir dirname ++ ["Counter.abi"] := by
  simp [abiPath, pathJoin]

theorem binPath_eq (dirname : Path) :
    binPath dirname = buildDir dirname ++ ["Counter.bin"] := by
  simp [binPath, pathJoin]

/-! ## Failing runs -/

/-- C6: when the source file `contracts/Counter.sol` is missing or cannot be read, the run dies
of the I/O error of the read, the exit code is not zero, the compiler is never called and the
file system is as it was. -/
theorem unreadable_source_aborts (dirname : Path) (oracle : String → Option Json)
    (fs : FileSystem)
    (h : stat fs (contractPath dirname) = none
      ∨ (∀ source, readFileSync fs (contractPath dirname) ≠ .ok source)) :
    (∃ code, (run dirname oracle fs).completion = .throw (.systemError code))
      ∧ (run dirname oracle fs).exitCode ≠ 0
      ∧ (run dirname oracle fs).oracleCalls = []
      ∧ (run dirname oracle fs).fs = fs
      ∧ (run dirname oracle fs).written = [] := by
  have hno : ∀ source, readFileSync fs (contractPath dirname) ≠ .ok source := by
    rcases h with h | h
    · intro source; simp [readFileSync, h]
    · exact h
  have hcode : ∃ code, readFileSync fs (contractPath dirname) = .error (.systemError code) := by
    unfold readFileSync at hno ⊢
    split <;> simp_all
  obtain ⟨code, hcode⟩ := hcode
  simp [run, hcode, Outcome.exitCode]

theorem unreadable_source_aborts_witness :
    (∃ code, (run sampleDirname (fun _ => some sampleOutput) sampleFsNoSource).completion
        = .throw (.systemError code))
      ∧ (run sampleDirname (fun _ => some sampleOutput) sampleFsNoSource).exitCode ≠ 0
      ∧ (run sampleDirname (fun _ => some sampleOutput) sampleFsNoSource).oracleCalls = []
      ∧ (run sampleDirname (fun _ => some sampleOutput) sampleFsNoSource).fs = sampleFsNoSource
      ∧ (run sampleDirname (fun _ => some sampleOutput) sampleFsNoSource).written = [] :=
  unreadable_source_aborts sampleDirname (fun _ => some sampleOutput) sampleFsNoSource
    (Or.inl (by decide))

/-- C1: when the source is readable and the compiler output has a present, non-empty `errors`
array, the run reports the diagnostics, exits with code 1 and leaves the file system as it was:
no directory is created and no artifact is written, whatever else the output holds. -/
theorem compile_errors_abort (dirname : Path) (oracle : String → Option Json)
    (fs : FileSystem) (source : String) (output : Json) (errs : List Json)
    (hread : readFileSync fs (contractPath dirname) = .ok source)
    (horacle : oracle (compilerRequest source) = some output)
    (herrors : getProp (some output) "errors" = .ok (some (.arr errs)))
    (_hne : errs ≠ []) :
    (run dirname oracle fs).completion = .exit 1
      ∧ (run dirname oracle fs).exitCode ≠ 0
      ∧ (run dirname oracle fs).stderr
          = [[.text "Compilation errors:", .value (some (.arr errs))]]
      ∧ (run dirname oracle fs).fs = fs
      ∧ (run dirname oracle fs).written = [] := by
  simp [run, hread, horacle, herrors, truthy, Outcome.exitCode]

theorem compile_errors_abort_witness :
    (run sampleDirname (fun _ => some sampleOutputWithErrors) sampleFs).completion = .exit 1
      ∧ (run sampleDirname (fun _ => some sampleOutputWithErrors) sampleFs).exitCode ≠ 0
      ∧ (run sampleDirname (fun _ => some sampleOutputWithErrors) sampleFs).stderr
          = [[.text "Compilation errors:", .value (some (.arr [sampleDiagnostic]))]]
      ∧ (run sampleDirname (fun _ => some sampleOutputWithErrors) sampleFs).fs = sampleFs
      ∧ (run sampleDirname (fun _ => some sampleOutputWithErrors) sampleFs).written = [] :=
  compile_errors_abort sampleDirname (fun _ => some sampleOutputWithErrors) sampleFs
    "contract SimpleCounter {}" sampleOutputWithErrors [sampleDiagnostic]
    rfl rfl rfl (by simp)

/-- C2: when the output has no errors (the `errors` read is falsy) and its entry for
`Counter.sol` holds no member named `SimpleCounter`, the run reports the diagnostic that names
`SimpleCounter`, exits with code 1 and leaves the file system as it was. -/
theorem missing_contract_aborts (dirname : Path) (oracle : String → Option Json)
    (fs : FileSystem) (source : String) (output : Json) (errors : JsVal)
    (files entries : List (String × Json))
    (hread : readFileSync fs (contractPath dirname) = .ok source)
    (horacle : oracle (compilerRequest source) = some output)
    (herrors : getProp (some output) "errors" = .ok errors)
    (hfalsy : truthy errors = false)
    (hcontracts : getProp (some output) "contracts" = .ok (some (.obj files)))
    (hfile : lookupKey "Counter.sol" files = some (.obj entries))
    (hname : lookupKey "SimpleCounter" entries = none) :
    (run dirname oracle fs).completion = .exit 1
      ∧ (run dirname oracle fs).exitCode ≠ 0
      ∧ (run dirname oracle fs).stderr = [[.text "Contract SimpleCounter not found in output"]]
      ∧ (run dirname oracle fs).fs = fs
      ∧ (run dirname oracle fs).written = [] := by
  have hlookup : lookupContract output = .ok none := by
    simp only [lookupContract, hcontracts]
    simp [getProp, hfile, contractName, hname]
  have hmsg : "Contract " ++ contractName ++ " not found in output"
      = "Contract SimpleCounter not found in output" := by decide
  have hundef : truthy none = false := rfl
  simp [run, hread, horacle, herrors, hfalsy, hlookup, hundef, Outcome.exitCode, hmsg]

theorem missing_contract_aborts_witness :
    (run sampleDirname (fun _ => some sampleOutputOtherContract) sampleFs).completion = .exit 1
      ∧ (run sampleDirname (fun _ => some sampleOutputOtherContract) sampleFs).exitCode ≠ 0
      ∧ (run sampleDirname (fun _ => some sampleOutputOtherContract) sampleFs).stderr
          = [[.text "Contract SimpleCounter not found in output"]]
      ∧ (run sampleDirname (fun _ => some sampleOutputOtherContract) sampleFs).fs = sampleFs
      ∧ (run sampleDirname (fun _ => some sampleOutputOtherContract) sampleFs).written = [] :=
  missing_contract_aborts sampleDirname (fun _ => some sampleOutputOtherContract) sampleFs
    "contract SimpleCounter {}" sampleOutputOtherContract none
    [("Counter.sol", .obj [("Counter", sampleEntry)])] [("Counter", sampleEntry)]
    rfl rfl rfl rfl rfl rfl rfl

/-- C10: on an output without diagnostics and without a `contracts` mapping, and on one whose
`contracts` mapping is empty, the lookup of the target contract throws a TypeError before the
contract-not-found check is reached: the run dies of the uncaught exception with nothing on the
error stream of the script, where the claim expects the diagnostic naming `SimpleCounter`. The
exit code is 1 and nothing is written. -/
theorem missing_file_entry_throws :
    (run sampleDirname (fun _ => some sampleOutputNoContracts) sampleFs).completion
        = .throw .typeError
      ∧ (run sampleDirname (fun _ => some sampleOutputNoContracts) sampleFs).stderr = []
      ∧ (run sampleDirname (fun _ => some sampleOutputNoContracts) sampleFs).exitCode = 1
      ∧ (run sampleDirname (fun _ => some sampleOutputNoContracts) sampleFs).written = []
      ∧ (run sampleDirname (fun _ => some (.obj [("contracts", .obj [])])) sampleFs).completion
        = .throw .typeError
      ∧ (run sampleDirname (fun _ => some (.obj [("contracts", .obj [])])) sampleFs).stderr = []
      ∧ (run sampleDirname (fun _ => some (.obj [("contracts", .obj [])])) sampleFs).written
        = [] :=
  ⟨rfl, rfl, rfl, rfl, rfl, rfl, rfl⟩

/-! ## File-system lemmas -/

theorem find_set (fs : FileSystem) (p q : Path) (n : Node) :
    (fs.set p n).find q = if p = q then some n else fs.find q := by
  induction fs with
  | nil => simp [FileSystem.set, FileSystem.find]
  | cons e rest ih =>
    obtain ⟨r, m⟩ := e
    by_cases hrp : r = p
    · subst hrp
      by_cases hq : r = q <;> simp [FileSystem.set, FileSystem.find, hq]
    · by_cases hq : r = q
      · subst hq
        have : ¬ p = r := fun h => hrp h.symm
        simp [FileSystem.set, FileSystem.find, hrp, this]
      · simp [FileSystem.set, FileSystem.find, hrp, hq, ih]

theorem stat_set (fs : FileSystem) (p q : Path) (n : Node) (hp : p ≠ []) :
    stat (fs.set p n) q = if p = q then some n else stat fs q := by
  unfold stat
  by_cases hq : q = []
  · subst hq; simp [hp]
  · simp [hq, find_set]

theorem set_eq_self (fs : FileSystem) (p : Path) (n : Node) (h : fs.find p = some n) :
    fs.set p n = fs := by
  induction fs with
  | nil => simp [FileSystem.find] at h
  | cons e rest ih =>
    obtain ⟨r, m⟩ := e
    by_cases hrp : r = p
    · subst hrp
      simp [FileSystem.find] at h
      simp [FileSystem.set, h]
    · simp [FileSystem.find, hrp] at h
      simp [FileSystem.set, hrp, ih h]

theorem stat_eq_find (fs : FileSystem) (p : Path) (hp : p ≠ []) : stat fs p = fs.find p := by
  simp [stat, hp]

theorem mkdirp_stat_of_some (rest : List String) (fs : FileSystem) (parent q : Path) (n : Node)
    (h : stat fs q = some n) : stat (mkdirp fs parent rest).1 q = some n := by
  induction rest generalizing fs parent with
  | nil => simpa [mkdirp] using h
  | cons s rest ih =>
    unfold mkdirp
    split
    · exact ih _ _ h
    · exact h
    · next hnone =>
      apply ih
      rw [stat_set _ _ _ _ (by simp)]
      have : ¬ parent ++ [s] = q := by
        intro hq; rw [hq, h] at hnone; cases hnone
      simp [this, h]

theorem mkdirp_stat_frame (rest : List String) (fs : FileSystem) (parent q : Path)
    (h : ∀ k, k ≤ rest.length → q ≠ parent ++ rest.take k) :
    stat (mkdirp fs parent rest).1 q = stat fs q := by
  induction rest generalizing fs parent with
  | nil => simp [mkdirp]
  | cons s rest ih =>
    have hstep : ∀ k, k ≤ rest.length → q ≠ (parent ++ [s]) ++ rest.take k := by
      intro k hk
      have := h (k + 1) (by simpa using hk)
      simpa using this
    unfold mkdirp
    split
    · exact ih _ _ hstep
    · rfl
    · rw [ih _ _ hstep, stat_set _ _ _ _ (by simp)]
      have : ¬ parent ++ [s] = q := by
        intro hq
        have := hstep 0 (Nat.zero_le _)
        simp [hq] at this
      simp [this]

theorem mkdirp_dir_of_ok (rest : List String) (fs : FileSystem) (parent : Path)
    (hparent : stat fs parent = some .dir) (h : (mkdirp fs parent rest).2 = none) :
    stat (mkdirp fs parent rest).1 (parent ++ rest) = some .dir := by
  induction rest generalizing fs parent with
  | nil => simpa [mkdirp] using hparent
  | cons s rest ih =>
    unfold mkdirp at h ⊢
    split
    · next hdir =>
      simp only [hdir] at h
      have := ih fs (parent ++ [s]) hdir h
      simpa using this
    · next hfile => simp [hfile] at h
    · next hnone =>
      simp only [hnone] at h
      have hnew : stat (fs.set (parent ++ [s]) .dir) (parent ++ [s]) = some .dir := by
        rw [stat_set _ _ _ _ (by simp)]; simp
      have := ih _ (parent ++ [s]) hnew h
      simpa using this

theorem canMkdirp_set_dir (rest : List String) (fs : FileSystem) (parent p : Path)
    (hp : p ≠ []) (h : canMkdirp fs parent rest = true) :
    canMkdirp (fs.set p .dir) parent rest = true := by
  induction rest generalizing parent with
  | nil => simp [canMkdirp]
  | cons s rest ih =>
    simp only [canMkdirp, Bool.and_eq_true] at h ⊢
    refine ⟨?_, ih _ h.2⟩
    rw [stat_set _ _ _ _ hp]
    by_cases hq : p = parent ++ [s]
    · simp [hq, isFile]
    · simpa [hq] using h.1

theorem mkdirp_ok (rest : List String) (fs : FileSystem) (parent : Path)
    (h : canMkdirp fs parent rest = true) : (mkdirp fs parent rest).2 = none := by
  induction rest generalizing fs parent with
  | nil => simp [mkdirp]
  | cons s rest ih =>
    simp only [canMkdirp, Bool.and_eq_true] at h
    unfold mkdirp
    split
    · exact ih _ _ h.2
    · next hfile => simp [hfile, isFile] at h
    · exact ih _ _ (canMkdirp_set_dir _ _ _ _ (by simp) h.2)

theorem canMkdirp_last (rest : List String) (fs : FileSystem) (parent : Path)
    (h : canMkdirp fs parent rest = true) (hne : rest ≠ []) :
    isFile (stat fs (parent ++ rest)) = false := by
  induction rest generalizing parent with
  | nil => exact absurd rfl hne
  | cons s rest ih =>
    simp only [canMkdirp, Bool.and_eq_true] at h
    by_cases hr : rest = []
    · subst hr; simpa using h.1
    · have := ih (parent ++ [s]) h.2 hr
      simpa using this

theorem writeFileSync_ok_inv (fs fs' : FileSystem) (p : Path) (data : JsVal)
    (h : writeFileSync fs p data = .ok fs') :
    ∃ s r, data = some (.str s) ∧ fs' = fs.set p (.file s r true) := by
  unfold writeFileSync at h
  split at h
  · next s =>
    split at h
    · next c r hst => exact ⟨s, r, rfl, by cases h; rfl⟩
    · cases h
    · cases h
    · split at h
      · exact ⟨s, true, rfl, by cases h; rfl⟩
      · cases h
      · cases h
  · cases h

theorem writeFileSync_same (fs : FileSystem) (p : Path) (s : String) (r : Bool)
    (hp : p ≠ []) (h : stat fs p = some (.file s r true)) :
    writeFileSync fs p (some (.str s)) = .ok fs := by
  have hfind : fs.find p = some (.file s r true) := by rw [← stat_eq_find fs p hp]; exact h
  simp [writeFileSync, h, set_eq_self fs p _ hfind]

theorem writeFileSync_ok (fs : FileSystem) (p : Path) (s : String)
    (hw : writableTarget fs p = true) (hparent : stat fs p.dropLast = some .dir) :
    ∃ r, writeFileSync fs p (some (.str s)) = .ok (fs.set p (.file s r true)) := by
  unfold writableTarget at hw
  unfold writeFileSync
  split at hw
  · next hst => exact ⟨true, by simp [hst, hparent]⟩
  · next c r w hst => subst hw; exact ⟨r, by simp [hst]⟩
  · cases hw

theorem jsonStringify_eq_str (v : JsVal) (space : Nat) (s : String)
    (h : jsonStringify v space = some (.str s)) :
    ∃ j, v = some j ∧ s = stringifyValue j space := by
  cases v with
  | none => simp [jsonStringify] at h
  | some j => exact ⟨j, rfl, by simpa [jsonStringify] using h.symm⟩

/-! ## The artifact paths -/

theorem buildDir_ne_nil (dirname : Path) : buildDir dirname ≠ [] := by
  simp [buildDir_eq]

theorem abiPath_ne_nil (dirname : Path) : abiPath dirname ≠ [] := by
  simp [abiPath_eq]

theorem binPath_ne_nil (dirname : Path) : binPath dirname ≠ [] := by
  simp [binPath_eq]

theorem abiPath_ne_binPath (dirname : Path) : abiPath dirname ≠ binPath dirname := by
  simp [abiPath_eq, binPath_eq]

theorem abiPath_dropLast (dirname : Path) : (abiPath dirname).dropLast = buildDir dirname := by
  simp [abiPath_eq, List.dropLast_concat]

theorem binPath_dropLast (dirname : Path) : (binPath dirname).dropLast = buildDir dirname := by
  simp [binPath_eq, List.dropLast_concat]

theorem abiPath_ne_take (dirname : Path) (k : Nat) :
    abiPath dirname ≠ (buildDir dirname).take k := by
  intro h
  have := congrArg List.length h
  simp [abiPath_eq, List.length_take] at this
  omega

theorem binPath_ne_take (dirname : Path) (k : Nat) :
    binPath dirname ≠ (buildDir dirname).take k := by
  intro h
  have := congrArg List.length h
  simp [binPath_eq, List.length_take] at this
  omega

theorem contractPath_ne_abiPath (dirname : Path) : contractPath dirname ≠ abiPath dirname := by
  intro h
  have := congrArg List.length h
  simp [contractPath_eq, abiPath_eq, buildDir_eq] at this

theorem contractPath_ne_binPath (dirname : Path) : contractPath dirname ≠ binPath dirname := by
  intro h
  have := congrArg List.length h
  simp [contractPath_eq, binPath_eq, buildDir_eq] at this

theorem buildDir_ne_abiPath (dirname : Path) : buildDir dirname ≠ abiPath dirname := by
  intro h
  have := congrArg List.length h
  simp [abiPath_eq] at this

theorem buildDir_ne_binPath (dirname : Path) : buildDir dirname ≠ binPath dirname := by
  intro h
  have := congrArg List.length h
  simp [binPath_eq] at this

/-! ## The directory step -/

theorem ensureBuildDir_stat_of_some (dirname : Path) (fs : FileSystem) (q : Path) (n : Node)
    (h : stat fs q = some n) : stat (ensureBuildDir dirname fs).1 q = some n := by
  unfold ensureBuildDir
  split
  · exact h
  · exact mkdirp_stat_of_some _ _ _ _ _ h

theorem ensureBuildDir_frame (dirname : Path) (fs : FileSystem) (q : Path)
    (h : ∀ k, q ≠ (buildDir dirname).take k) :
    stat (ensureBuildDir dirname fs).1 q = stat fs q := by
  unfold ensureBuildDir
  split
  · rfl
  · exact mkdirp_stat_frame _ _ _ _ (fun k _ => by simpa using h k)

theorem ensureBuildDir_exists (dirname : Path) (fs : FileSystem)
    (h : (ensureBuildDir dirname fs).2 = none) :
    existsSync (ensureBuildDir dirname fs).1 (buildDir dirname) = true := by
  unfold ensureBuildDir at h ⊢
  split
  · next hex => exact hex
  · next hex =>
    simp only [hex] at h
    have := mkdirp_dir_of_ok (buildDir dirname) fs [] (by simp [stat]) h
    simp only [List.nil_append] at this
    simp [existsSync, mkdirSync, this]

theorem ensureBuildDir_ok (dirname : Path) (fs : FileSystem)
    (h : canMkdirp fs [] (buildDir dirname) = true) :
    (ensureBuildDir dirname fs).2 = none
      ∧ stat (ensureBuildDir dirname fs).1 (buildDir dirname) = some .dir := by
  unfold ensureBuildDir
  split
  · next hex =>
    refine ⟨rfl, ?_⟩
    have hnf := canMkdirp_last _ _ _ h (buildDir_ne_nil dirname)
    simp only [List.nil_append] at hnf
    simp only [existsSync] at hex
    cases hst : stat fs (buildDir dirname) with
    | none => simp [hst] at hex
    | some n =>
      cases n with
      | dir => rfl
      | file c r w => simp [hst, isFile] at hnf
  · have hok := mkdirp_ok _ _ _ h
    refine ⟨hok, ?_⟩
    have := mkdirp_dir_of_ok (buildDir dirname) fs [] (by simp [stat]) hok
    simpa [mkdirSync] using this

theorem ensureBuildDir_of_exists (dirname : Path) (fs : FileSystem)
    (h : existsSync fs (buildDir dirname) = true) : ensureBuildDir dirname fs = (fs, none) := by
  simp [ensureBuildDir, h]

/-! ## Successful runs -/

theorem run_normal_inv (dirname : Path) (oracle : String → Option Json) (fs : FileSystem)
    (h : (run dirname oracle fs).completion = .normal) :
    ∃ source output errors contractData fs1 abi fs2 code fs3,
      readFileSync fs (contractPath dirname) = .ok source
        ∧ oracle (compilerRequest source) = some output
        ∧ getProp (some output) "errors" = .ok errors
        ∧ truthy errors = false
        ∧ lookupContract output = .ok contractData
        ∧ truthy contractData = true
        ∧ ensureBuildDir dirname fs = (fs1, none)
        ∧ getProp contractData "abi" = .ok abi
        ∧ writeFileSync fs1 (abiPath dirname) (jsonStringify abi 2) = .ok fs2
        ∧ bytecodeObject contractData = .ok code
        ∧ writeFileSync fs2 (binPath dirname) code = .ok fs3
        ∧ run dirname oracle fs = ⟨.normal, fs3, successReport, [], [compilerRequest source],
            [abiPath dirname, binPath dirname]⟩ := by
  cases hread : readFileSync fs (contractPath dirname) with
  | error e => simp [run, hread] at h
  | ok source =>
  cases horacle : oracle (compilerRequest source) with
  | none => simp [run, hread, horacle] at h
  | some output =>
  cases herr : getProp (some output) "errors" with
  | error e => simp [run, hread, horacle, herr] at h
  | ok errors =>
  cases ht : truthy errors with
  | true => simp [run, hread, horacle, herr, ht] at h
  | false =>
  cases hlook : lookupContract output with
  | error e => simp [run, hread, horacle, herr, ht, hlook] at h
  | ok contractData =>
  cases htc : truthy contractData with
  | false => simp [run, hread, horacle, herr, ht, hlook, htc] at h
  | true =>
  cases hens : ensureBuildDir dirname fs with
  | mk fs1 oe =>
  cases oe with
  | some e => simp [run, hread, horacle, herr, ht, hlook, htc, hens] at h
  | none =>
  cases habi : getProp contractData "abi" with
  | error e => simp [run, hread, horacle, herr, ht, hlook, htc, hens, habi] at h
  | ok abi =>
  cases hw1 : writeFileSync fs1 (abiPath dirname) (jsonStringify abi 2) with
  | error e => simp [run, hread, horacle, herr, ht, hlook, htc, hens, habi, hw1] at h
  | ok fs2 =>
  cases hcode : bytecodeObject contractData with
  | error e => simp [run, hread, horacle, herr, ht, hlook, htc, hens, habi, hw1, hcode] at h
  | ok code =>
  cases hw2 : writeFileSync fs2 (binPath dirname) code with
  | error e =>
    simp [run, hread, horacle, herr, ht, hlook, htc, hens, habi, hw1, hcode, hw2] at h
  | ok fs3 =>
    exact ⟨source, output, errors, contractData, fs1, abi, fs2, code, fs3, rfl, horacle, herr,
      ht, hlook, htc, rfl, habi, hw1, hcode, hw2,
      by simp [run, hread, horacle, herr, ht, hlook, htc, hens, habi, hw1, hcode, hw2]⟩

theorem run_of_steps (dirname : Path) (oracle : String → Option Json) (fs : FileSystem)
    (source : String) (output : Json) (errors contractData : JsVal) (fs1 : FileSystem)
    (abi : JsVal) (fs2 : FileSystem) (code : JsVal) (fs3 : FileSystem)
    (hread : readFileSync fs (contractPath dirname) = .ok source)
    (horacle : oracle (compilerRequest source) = some output)
    (herr : getProp (some output) "errors" = .ok errors)
    (ht : truthy errors = false)
    (hlook : lookupContract output = .ok contractData)
    (htc : truthy contractData = true)
    (hens : ensureBuildDir dirname fs = (fs1, none))
    (habi : getProp contractData "abi" = .ok abi)
    (hw1 : writeFileSync fs1 (abiPath dirname) (jsonStringify abi 2) = .ok fs2)
    (hcode : bytecodeObject contractData = .ok code)
    (hw2 : writeFileSync fs2 (binPath dirname) code = .ok fs3) :
    run dirname oracle fs = ⟨.normal, fs3, successReport, [], [compilerRequest source],
      [abiPath dirname, binPath dirname]⟩ := by
  simp [run, hread, horacle, herr, ht, hlook, htc, hens, habi, hw1, hcode, hw2]

theorem ensureBuildDir_dir_of_ok (dirname : Path) (fs fs1 : FileSystem)
    (hens : ensureBuildDir dirname fs = (fs1, none))
    (hnf : isFile (stat fs (buildDir dirname)) = false) :
    stat fs1 (buildDir dirname) = some .dir := by
  have hex := ensureBuildDir_exists dirname fs (by rw [hens])
  rw [hens] at hex
  simp only [existsSync] at hex
  cases hst : stat fs (buildDir dirname) with
  | none =>
    have h2 : (ensureBuildDir dirname fs).2 = none := by rw [hens]
    unfold ensureBuildDir at h2 hens
    simp only [existsSync, hst, Option.isSome_none, Bool.false_eq_true, if_false] at h2 hens
    have := mkdirp_dir_of_ok (buildDir dirname) fs [] (by simp [stat]) h2
    simp only [List.nil_append] at this
    simp only [mkdirSync] at hens
    rw [hens] at this
    exact this
  | some n =>
    have h1 := ensureBuildDir_stat_of_some dirname fs _ _ hst
    rw [hens] at h1
    cases n with
    | dir => exact h1
    | file c r w => simp [hst, isFile] at hnf

theorem writableTarget_congr (fs fs' : FileSystem) (p : Path) (h : stat fs' p = stat fs p) :
    writableTarget fs' p = writableTarget fs p := by
  simp [writableTarget, h]

/-- Every step of a run goes through when the output passes both validations, the target entry
carries an `abi` and a string `evm.bytecode.object`, and the file system lets the directory step
and the writes through. -/
theorem run_succeeds (dirname : Path) (oracle : String → Option Json) (fs : FileSystem)
    (source : String) (output : Json) (errors : JsVal) (entry abi : Json) (code : String)
    (hread : readFileSync fs (contractPath dirname) = .ok source)
    (horacle : oracle (compilerRequest source) = some output)
    (herr : getProp (some output) "errors" = .ok errors)
    (ht : truthy errors = false)
    (hlook : lookupContract output = .ok (some entry))
    (htc : truthy (some entry) = true)
    (habi : getProp (some entry) "abi" = .ok (some abi))
    (hcode : bytecodeObject (some entry) = .ok (some (.str code)))
    (hio : ioCannotFail dirname fs = true) :
    ∃ fs1 r1 r2, ensureBuildDir dirname fs = (fs1, none)
      ∧ stat fs1 (buildDir dirname) = some .dir
      ∧ run dirname oracle fs
        = ⟨.normal,
            (fs1.set (abiPath dirname) (.file (stringifyValue abi 2) r1 true)).set
              (binPath dirname) (.file code r2 true),
            successReport, [], [compilerRequest source],
            [abiPath dirname, binPath dirname]⟩ := by
  simp only [ioCannotFail, Bool.and_eq_true] at hio
  obtain ⟨⟨hmk, hwa⟩, hwb⟩ := hio
  obtain ⟨hens2, hdir⟩ := ensureBuildDir_ok dirname fs hmk
  cases hens : ensureBuildDir dirname fs with
  | mk fs1 oe =>
  rw [hens] at hens2 hdir
  simp only at hens2 hdir
  subst hens2
  have hfa : stat fs1 (abiPath dirname) = stat fs (abiPath dirname) := by
    have := ensureBuildDir_frame dirname fs (abiPath dirname) (abiPath_ne_take dirname)
    rwa [hens] at this
  have hfb : stat fs1 (binPath dirname) = stat fs (binPath dirname) := by
    have := ensureBuildDir_frame dirname fs (binPath dirname) (binPath_ne_take dirname)
    rwa [hens] at this
  obtain ⟨r1, hw1⟩ := writeFileSync_ok fs1 (abiPath dirname) (stringifyValue abi 2)
    (by rw [writableTarget_congr _ _ _ hfa]; exact hwa) (by rw [abiPath_dropLast]; exact hdir)
  have hsb : stat (fs1.set (abiPath dirname) (.file (stringifyValue abi 2) r1 true))
      (binPath dirname) = stat fs (binPath dirname) := by
    rw [stat_set _ _ _ _ (abiPath_ne_nil dirname), if_neg (abiPath_ne_binPath dirname), hfb]
  have hsd : stat (fs1.set (abiPath dirname) (.file (stringifyValue abi 2) r1 true))
      (buildDir dirname) = some .dir := by
    rw [stat_set _ _ _ _ (abiPath_ne_nil dirname),
      if_neg (fun h => buildDir_ne_abiPath dirname h.symm), hdir]
  obtain ⟨r2, hw2⟩ := writeFileSync_ok
    (fs1.set (abiPath dirname) (.file (stringifyValue abi 2) r1 true)) (binPath dirname) code
    (by rw [writableTarget_congr _ _ _ hsb]; exact hwb) (by rw [binPath_dropLast]; exact hsd)
  refine ⟨fs1, r1, r2, rfl, hdir, ?_⟩
  exact run_of_steps dirname oracle fs source output errors (some entry) fs1 (some abi) _
    (some (.str code)) _ hread horacle herr ht hlook htc hens habi
    (by simpa [jsonStringify] using hw1) hcode hw2

/-- C4: after a successful run the content of `Counter.bin` is exactly the string that the read
`evm.bytecode.object` of the target entry of the compiler output yields, whatever the file
system held before the run. -/
theorem bytecode_written_verbatim (dirname : Path) (oracle : String → Option Json)
    (fs : FileSystem) (source : String) (output : Json)
    (hread : readFileSync fs (contractPath dirname) = .ok source)
    (horacle : oracle (compilerRequest source) = some output)
    (hsuccess : (run dirname oracle fs).completion = .normal) :
    ∃ entry code r, lookupContract output = .ok entry
      ∧ bytecodeObject entry = .ok (some (.str code))
      ∧ stat (run dirname oracle fs).fs (binPath dirname) = some (.file code r true) := by
  obtain ⟨source', output', errors, contractData, fs1, abi, fs2, bytes, fs3, hread', horacle',
    -, -, hlook, -, -, -, -, hcode, hw2, hrun⟩ := run_normal_inv dirname oracle fs hsuccess
  rw [hread] at hread'
  cases hread'
  rw [horacle] at horacle'
  cases horacle'
  obtain ⟨code, r, hdata, hfs3⟩ := writeFileSync_ok_inv _ _ _ _ hw2
  subst hdata
  refine ⟨contractData, code, r, hlook, hcode, ?_⟩
  rw [hrun]
  simp only
  rw [hfs3, stat_set _ _ _ _ (binPath_ne_nil dirname)]
  simp

theorem bytecode_written_verbatim_witness :
    ∃ entry code r, lookupContract sampleOutput = .ok entry
      ∧ bytecodeObject entry = .ok (some (.str code))
      ∧ stat (run sampleDirname (fun _ => some sampleOutput) sampleFs).fs
          (binPath sampleDirname) = some (.file code r true) :=
  bytecode_written_verbatim sampleDirname (fun _ => some sampleOutput) sampleFs
    "contract SimpleCounter {}" sampleOutput rfl rfl rfl

/-- C5: with the compiler a fixed function of its request, a second run on the file system a
successful run has left succeeds as well and ends in the same outcome, the file system with
`Counter.abi` and `Counter.bin` included; the successful run leaves the source file
`contracts/Counter.sol` as it was. -/
theorem run_idempotent (dirname : Path) (oracle : String → Option Json) (fs : FileSystem)
    (hsuccess : (run dirname oracle fs).completion = .normal) :
    (run dirname oracle (run dirname oracle fs).fs).completion = .normal
      ∧ (run dirname oracle (run dirname oracle fs).fs).fs = (run dirname oracle fs).fs
      ∧ stat (run dirname oracle (run dirname oracle fs).fs).fs (abiPath dirname)
          = stat (run dirname oracle fs).fs (abiPath dirname)
      ∧ stat (run dirname oracle (run dirname oracle fs).fs).fs (binPath dirname)
          = stat (run dirname oracle fs).fs (binPath dirname)
      ∧ stat (run dirname oracle fs).fs (contractPath dirname)
          = stat fs (contractPath dirname) := by
  obtain ⟨source, output, errors, contractData, fs1, abi, fs2, code, fs3, hread, horacle,
    herr, ht, hlook, htc, hens, habi, hw1, hcode, hw2, hrun⟩ :=
    run_normal_inv dirname oracle fs hsuccess
  obtain ⟨text, r1, hdata1, hfs2⟩ := writeFileSync_ok_inv _ _ _ _ hw1
  obtain ⟨bytes, r2, hdata2, hfs3⟩ := writeFileSync_ok_inv _ _ _ _ hw2
  -- the source file is where it was
  have hsrc : ∃ w, stat fs (contractPath dirname) = some (.file source true w) := by
    unfold readFileSync at hread
    split at hread
    · next c w hst => cases hread; exact ⟨w, hst⟩
    · cases hread
    · cases hread
    · cases hread
  obtain ⟨w, hsrc⟩ := hsrc
  have hsrc1 : stat fs1 (contractPath dirname) = some (.file source true w) := by
    have := ensureBuildDir_stat_of_some dirname fs _ _ hsrc
    rwa [hens] at this
  have hsrc3 : stat fs3 (contractPath dirname) = some (.file source true w) := by
    rw [hfs3, stat_set _ _ _ _ (binPath_ne_nil dirname),
      if_neg (fun h => contractPath_ne_binPath dirname h.symm), hfs2,
      stat_set _ _ _ _ (abiPath_ne_nil dirname),
      if_neg (fun h => contractPath_ne_abiPath dirname h.symm), hsrc1]
  have hread3 : readFileSync fs3 (contractPath dirname) = .ok source := by
    simp [readFileSync, hsrc3]
  -- the build directory is there
  have hex1 : existsSync fs1 (buildDir dirname) = true := by
    have := ensureBuildDir_exists dirname fs (by rw [hens])
    rwa [hens] at this
  have hex3 : existsSync fs3 (buildDir dirname) = true := by
    simp only [existsSync] at hex1 ⊢
    rw [hfs3, stat_set _ _ _ _ (binPath_ne_nil dirname),
      if_neg (fun h => buildDir_ne_binPath dirname h.symm), hfs2,
      stat_set _ _ _ _ (abiPath_ne_nil dirname),
      if_neg (fun h => buildDir_ne_abiPath dirname h.symm)]
    exact hex1
  have hens3 : ensureBuildDir dirname fs3 = (fs3, none) := ensureBuildDir_of_exists _ _ hex3
  -- both artifacts hold what the second run writes
  have habi3 : stat fs3 (abiPath dirname) = some (.file text r1 true) := by
    rw [hfs3, stat_set _ _ _ _ (binPath_ne_nil dirname),
      if_neg (fun h => abiPath_ne_binPath dirname h.symm), hfs2,
      stat_set _ _ _ _ (abiPath_ne_nil dirname)]
    simp
  have hbin3 : stat fs3 (binPath dirname) = some (.file bytes r2 true) := by
    rw [hfs3, stat_set _ _ _ _ (binPath_ne_nil dirname)]
    simp
  have hw1' : writeFileSync fs3 (abiPath dirname) (jsonStringify abi 2) = .ok fs3 := by
    rw [hdata1]; exact writeFileSync_same _ _ _ _ (abiPath_ne_nil dirname) habi3
  have hw2' : writeFileSync fs3 (binPath dirname) code = .ok fs3 := by
    rw [hdata2]; exact writeFileSync_same _ _ _ _ (binPath_ne_nil dirname) hbin3
  have hrun3 := run_of_steps dirname oracle fs3 source output errors contractData fs3 abi fs3
    code fs3 hread3 horacle herr ht hlook htc hens3 habi hw1' hcode hw2'
  have hfs : (run dirname oracle fs).fs = fs3 := by rw [hrun]
  rw [hfs, hrun3]
  exact ⟨rfl, rfl, rfl, rfl, by rw [hsrc3, hsrc]⟩

theorem run_idempotent_witness :
    (run sampleDirname (fun _ => some sampleOutput)
        (run sampleDirname (fun _ => some sampleOutput) sampleFs).fs).completion = .normal
      ∧ (run sampleDirname (fun _ => some sampleOutput)
          (run sampleDirname (fun _ => some sampleOutput) sampleFs).fs).fs
        = (run sampleDirname (fun _ => some sampleOutput) sampleFs).fs
      ∧ stat (run sampleDirname (fun _ => some sampleOutput)
          (run sampleDirname (fun _ => some sampleOutput) sampleFs).fs).fs
            (abiPath sampleDirname)
        = stat (run sampleDirname (fun _ => some sampleOutput) sampleFs).fs
            (abiPath sampleDirname)
      ∧ stat (run sampleDirname (fun _ => some sampleOutput)
          (run sampleDirname (fun _ => some sampleOutput) sampleFs).fs).fs
            (binPath sampleDirname)
        = stat (run sampleDirname (fun _ => some sampleOutput) sampleFs).fs
            (binPath sampleDirname)
      ∧ stat (run sampleDirname (fun _ => some sampleOutput) sampleFs).fs
          (contractPath sampleDirname)
        = stat sampleFs (contractPath sampleDirname) :=
  run_idempotent sampleDirname (fun _ => some sampleOutput) sampleFs rfl

/-- C7, as the claim states it, fails: an output can pass both validations (no `errors`, a
truthy target entry) and still lack `evm.bytecode`. On a checkout where no file-system step can
fail the run then creates `contracts/build` and writes `Counter.abi`, dies of a TypeError with
exit code 1, and leaves the directory without `Counter.bin`. -/
theorem validated_output_without_bytecode :
    getProp (some sampleOutputNoBytecode) "errors" = .ok none
      ∧ lookupContract sampleOutputNoBytecode
        = .ok (some (.obj [("abi", .arr []), ("evm", .obj [])]))
      ∧ truthy (some (.obj [("abi", .arr []), ("evm", .obj [])])) = true
      ∧ ioCannotFail sampleDirname sampleFs = true
      ∧ (run sampleDirname (fun _ => some sampleOutputNoBytecode) sampleFs).completion
        = .throw .typeError
      ∧ (run sampleDirname (fun _ => some sampleOutputNoBytecode) sampleFs).exitCode = 1
      ∧ stat (run sampleDirname (fun _ => some sampleOutputNoBytecode) sampleFs).fs
          (buildDir sampleDirname) = some .dir
      ∧ stat (run sampleDirname (fun _ => some sampleOutputNoBytecode) sampleFs).fs
          (binPath sampleDirname) = none :=
  ⟨rfl, rfl, rfl, by decide, rfl, rfl, rfl, rfl⟩

/-- C7, amended: for an output that passes both validations and whose target entry carries an
`abi` and a string `evm.bytecode.object`, on a file system where the directory step and the
writes cannot fail, the run ends normally with exit code 0 and afterwards `contracts/build` is
a directory that holds `Counter.abi` and `Counter.bin`, whether the directory was there before
or not. Every path other than the two artifacts and the directories on the way to the build
directory is left as it was, and when the build directory was there already every path other
than the two artifacts is. -/
theorem build_dir_ensured (dirname : Path) (oracle : String → Option Json) (fs : FileSystem)
    (source : String) (output : Json) (errors : JsVal) (entry abi : Json) (code : String)
    (hread : readFileSync fs (contractPath dirname) = .ok source)
    (horacle : oracle (compilerRequest source) = some output)
    (herr : getProp (some output) "errors" = .ok errors)
    (ht : truthy errors = false)
    (hlook : lookupContract output = .ok (some entry))
    (htc : truthy (some entry) = true)
    (habi : getProp (some entry) "abi" = .ok (some abi))
    (hcode : bytecodeObject (some entry) = .ok (some (.str code)))
    (hio : ioCannotFail dirname fs = true) :
    (run dirname oracle fs).completion = .normal
      ∧ (run dirname oracle fs).exitCode = 0
      ∧ stat (run dirname oracle fs).fs (buildDir dirname) = some .dir
      ∧ (∃ r, stat (run dirname oracle fs).fs (abiPath dirname)
          = some (.file (stringifyValue abi 2) r true))
      ∧ (∃ r, stat (run dirname oracle fs).fs (binPath dirname) = some (.file code r true))
      ∧ (∀ q, q ≠ abiPath dirname → q ≠ binPath dirname →
          (∀ k, q ≠ (buildDir dirname).take k) →
          stat (run dirname oracle fs).fs q = stat fs q)
      ∧ (existsSync fs (buildDir dirname) = true →
          ∀ q, q ≠ abiPath dirname → q ≠ binPath dirname →
            stat (run dirname oracle fs).fs q = stat fs q) := by
  obtain ⟨fs1, r1, r2, hens, hdir, hrun⟩ := run_succeeds dirname oracle fs source output errors
    entry abi code hread horacle herr ht hlook htc habi hcode hio
  have hq : ∀ q, q ≠ abiPath dirname → q ≠ binPath dirname →
      stat (run dirname oracle fs).fs q = stat fs1 q := by
    intro q h1 h2
    rw [hrun]
    simp only
    rw [stat_set _ _ _ _ (binPath_ne_nil dirname), if_neg (fun h => h2 h.symm),
      stat_set _ _ _ _ (abiPath_ne_nil dirname), if_neg (fun h => h1 h.symm)]
  refine ⟨by rw [hrun], by rw [hrun]; rfl, ?_, ⟨r1, ?_⟩, ⟨r2, ?_⟩, ?_, ?_⟩
  · rw [hq _ (buildDir_ne_abiPath dirname) (buildDir_ne_binPath dirname), hdir]
  · rw [hrun]
    simp only
    rw [stat_set _ _ _ _ (binPath_ne_nil dirname),
      if_neg (fun h => abiPath_ne_binPath dirname h.symm),
      stat_set _ _ _ _ (abiPath_ne_nil dirname)]
    simp
  · rw [hrun]
    simp only
    rw [stat_set _ _ _ _ (binPath_ne_nil dirname)]
    simp
  · intro q h1 h2 h3
    rw [hq q h1 h2]
    have := ensureBuildDir_frame dirname fs q h3
    rwa [hens] at this
  · intro hex q h1 h2
    rw [hq q h1 h2]
    have := ensureBuildDir_of_exists dirname fs hex
    rw [hens] at this
    cases this
    rfl

theorem build_dir_ensured_witness :
    (run sampleDirname (fun _ => some sampleOutput) sampleFs).completion = .normal
      ∧ (run sampleDirname (fun _ => some sampleOutput) sampleFs).exitCode = 0
      ∧ stat (run sampleDirname (fun _ => some sampleOutput) sampleFs).fs
          (buildDir sampleDirname) = some .dir
      ∧ (∃ r, stat (run sampleDirname (fun _ => some sampleOutput) sampleFs).fs
          (abiPath sampleDirname) = some (.file (stringifyValue sampleAbi 2) r true))
      ∧ (∃ r, stat (run sampleDirname (fun _ => some sampleOutput) sampleFs).fs
          (binPath sampleDirname) = some (.file "6080" r true))
      ∧ (∀ q, q ≠ abiPath sampleDirname → q ≠ binPath sampleDirname →
          (∀ k, q ≠ (buildDir sampleDirname).take k) →
          stat (run sampleDirname (fun _ => some sampleOutput) sampleFs).fs q
            = stat sampleFs q)
      ∧ (existsSync sampleFs (buildDir sampleDirname) = true →
          ∀ q, q ≠ abiPath sampleDirname → q ≠ binPath sampleDirname →
            stat (run sampleDirname (fun _ => some sampleOutput) sampleFs).fs q
              = stat sampleFs q) :=
  build_dir_ensured sampleDirname (fun _ => some sampleOutput) sampleFs
    "contract SimpleCounter {}" sampleOutput none sampleEntry sampleAbi "6080"
    rfl rfl rfl rfl rfl rfl rfl rfl (by decide)

/-- C8, as the claim states it, fails: an output whose `errors` field is an empty array and
whose target entry carries an `abi` and an `evm.bytecode.object` makes the check fire, since an
empty array is truthy: the run reports `Compilation errors:`, exits with code 1 and writes
nothing, on a file system where nothing else could fail. -/
theorem empty_errors_array_is_fatal :
    getProp (some sampleOutputEmptyErrors) "errors" = .ok (some (.arr []))
      ∧ lookupContract sampleOutputEmptyErrors = .ok (some sampleEntry)
      ∧ getProp (some sampleEntry) "abi" = .ok (some sampleAbi)
      ∧ bytecodeObject (some sampleEntry) = .ok (some (.str "6080"))
      ∧ ioCannotFail sampleDirname sampleFs = true
      ∧ (run sampleDirname (fun _ => some sampleOutputEmptyErrors) sampleFs).completion
        = .exit 1
      ∧ (run sampleDirname (fun _ => some sampleOutputEmptyErrors) sampleFs).stderr
        = [[.text "Compilation errors:", .value (some (.arr []))]]
      ∧ (run sampleDirname (fun _ => some sampleOutputEmptyErrors) sampleFs).written = []
      ∧ (run sampleDirname (fun _ => some sampleOutputEmptyErrors) sampleFs).fs = sampleFs :=
  ⟨rfl, rfl, rfl, rfl, by decide, rfl, rfl, rfl, rfl⟩

/-- C8, amended: the compile-error check fires exactly when the read `output.errors` is truthy,
which an empty array is. When the `errors` field is absent (or holds a falsy value) and the
target entry carries an `abi` and a string `evm.bytecode.object`, on a file system where the
directory step and the writes cannot fail, the run reports no compilation error, writes both
artifacts and exits with code 0. -/
theorem errors_check_fires_iff_truthy (dirname : Path) (oracle : String → Option Json)
    (fs : FileSystem) (source : String) (output : Json) (errors : JsVal)
    (hread : readFileSync fs (contractPath dirname) = .ok source)
    (horacle : oracle (compilerRequest source) = some output)
    (herr : getProp (some output) "errors" = .ok errors) :
    ((run dirname oracle fs).stderr = [[.text "Compilation errors:", .value errors]]
        ↔ truthy errors = true)
      ∧ (truthy errors = true → (run dirname oracle fs).completion = .exit 1)
      ∧ (truthy errors = false → ∀ (entry abi : Json) (code : String),
          lookupContract output = .ok (some entry) →
          getProp (some entry) "abi" = .ok (some abi) →
          bytecodeObject (some entry) = .ok (some (.str code)) →
          ioCannotFail dirname fs = true →
          (run dirname oracle fs).completion = .normal
            ∧ (run dirname oracle fs).exitCode = 0
            ∧ (run dirname oracle fs).stderr = []
            ∧ (run dirname oracle fs).written = [abiPath dirname, binPath dirname]
            ∧ (∃ r, stat (run dirname oracle fs).fs (abiPath dirname)
                = some (.file (stringifyValue abi 2) r true))
            ∧ (∃ r, stat (run dirname oracle fs).fs (binPath dirname)
                = some (.file code r true))) := by
  have hfire : truthy errors = true →
      run dirname oracle fs = ⟨.exit 1, fs, [], [[.text "Compilation errors:", .value errors]],
        [compilerRequest source], []⟩ := by
    intro ht
    simp [run, hread, horacle, herr, ht]
  have hquiet : truthy errors = false →
      (run dirname oracle fs).stderr ≠ [[.text "Compilation errors:", .value errors]] := by
    intro ht
    have hmsg : "Contract " ++ contractName ++ " not found in output"
        ≠ "Compilation errors:" := by decide
    simp only [run, hread, horacle, herr, ht]
    simp only [Bool.false_eq_true, if_false]
    repeat' split
    all_goals simp [hmsg]
  refine ⟨⟨?_, fun ht => by rw [hfire ht]⟩, fun ht => by rw [hfire ht], ?_⟩
  · intro h
    cases ht : truthy errors with
    | true => rfl
    | false => exact absurd h (hquiet ht)
  · intro ht entry abi code hlook habi hcode hio
    have htc : truthy (some entry) = true := by
      cases entry <;> simp [bytecodeObject, getProp] at hcode
      rfl
    obtain ⟨fs1, r1, r2, hens, hdir, hrun⟩ := run_succeeds dirname oracle fs source output
      errors entry abi code hread horacle herr ht hlook htc habi hcode hio
    refine ⟨by rw [hrun], by rw [hrun]; rfl, by rw [hrun], by rw [hrun], ⟨r1, ?_⟩, ⟨r2, ?_⟩⟩
    · rw [hrun]
      simp only
      rw [stat_set _ _ _ _ (binPath_ne_nil dirname),
        if_neg (fun h => abiPath_ne_binPath dirname h.symm),
        stat_set _ _ _ _ (abiPath_ne_nil dirname)]
      simp
    · rw [hrun]
      simp only
      rw [stat_set _ _ _ _ (binPath_ne_nil dirname)]
      simp

theorem errors_check_fires_iff_truthy_witness :
    ((run sampleDirname (fun _ => some sampleOutput) sampleFs).stderr
          = [[.text "Compilation errors:", .value none]]
        ↔ truthy none = true)
      ∧ (truthy none = true →
          (run sampleDirname (fun _ => some sampleOutput) sampleFs).completion = .exit 1)
      ∧ (truthy none = false → ∀ (entry abi : Json) (code : String),
          lookupContract sampleOutput = .ok (some entry) →
          getProp (some entry) "abi" = .ok (some abi) →
          bytecodeObject (some entry) = .ok (some (.str code)) →
          ioCannotFail sampleDirname sampleFs = true →
          (run sampleDirname (fun _ => some sampleOutput) sampleFs).completion = .normal
            ∧ (run sampleDirname (fun _ => some sampleOutput) sampleFs).exitCode = 0
            ∧ (run sampleDirname (fun _ => some sampleOutput) sampleFs).stderr = []
            ∧ (run sampleDirname (fun _ => some sampleOutput) sampleFs).written
                = [abiPath sampleDirname, binPath sampleDirname]
            ∧ (∃ r, stat (run sampleDirname (fun _ => some sampleOutput) sampleFs).fs
                (abiPath sampleDirname) = some (.file (stringifyValue abi 2) r true))
            ∧ (∃ r, stat (run sampleDirname (fun _ => some sampleOutput) sampleFs).fs
                (binPath sampleDirname) = some (.file code r true))) :=
  errors_check_fires_iff_truthy sampleDirname (fun _ => some sampleOutput) sampleFs
    "contract SimpleCounter {}" sampleOutput none rfl rfl rfl

/-- C9, as the claim states it, fails: on a target entry that has an `abi` and no `evm`, and a
file system where no write can fail, the run writes `Counter.abi` and then dies of the TypeError
that reading `contractData.evm.bytecode` throws, before `Counter.bin` is written. -/
theorem abi_written_without_bytecode :
    ioCannotFail sampleDirname sampleFs = true
      ∧ writesCannotFail sampleDirname sampleFs = true
      ∧ (run sampleDirname (fun _ => some sampleOutputNoEvm) sampleFs).completion
        = .throw .typeError
      ∧ (run sampleDirname (fun _ => some sampleOutputNoEvm) sampleFs).written
        = [abiPath sampleDirname]
      ∧ stat (run sampleDirname (fun _ => some sampleOutputNoEvm) sampleFs).fs
          (abiPath sampleDirname) = some (.file (stringifyValue sampleAbi 2) true true)
      ∧ stat (run sampleDirname (fun _ => some sampleOutputNoEvm) sampleFs).fs
          (binPath sampleDirname) = none :=
  ⟨by decide, by decide, rfl, rfl, rfl, rfl⟩

/-- C9, amended: when the target entry of every output the compiler returns carries a string
`evm.bytecode.object` whenever it carries an `abi`, and no write can fail on the initial file
system, a run writes both `Counter.abi` and `Counter.bin` or writes neither. -/
theorem no_partial_success (dirname : Path) (oracle : String → Option Json) (fs : FileSystem)
    (htyped : ∀ source output entry abi, oracle (compilerRequest source) = some output →
      lookupContract output = .ok entry → getProp entry "abi" = .ok (some abi) →
      ∃ code, bytecodeObject entry = .ok (some (.str code)))
    (hio : writesCannotFail dirname fs = true) :
    ((run dirname oracle fs).written = []
        ∨ (run dirname oracle fs).written = [abiPath dirname, binPath dirname])
      ∧ (abiPath dirname ∈ (run dirname oracle fs).written
        ↔ binPath dirname ∈ (run dirname oracle fs).written) := by
  have key : (run dirname oracle fs).written = []
      ∨ (run dirname oracle fs).written = [abiPath dirname, binPath dirname] := by
    cases hread : readFileSync fs (contractPath dirname) with
    | error e => left; simp [run, hread]
    | ok source =>
    cases horacle : oracle (compilerRequest source) with
    | none => left; simp [run, hread, horacle]
    | some output =>
    cases herr : getProp (some output) "errors" with
    | error e => left; simp [run, hread, horacle, herr]
    | ok errors =>
    cases ht : truthy errors with
    | true => left; simp [run, hread, horacle, herr, ht]
    | false =>
    cases hlook : lookupContract output with
    | error e => left; simp [run, hread, horacle, herr, ht, hlook]
    | ok contractData =>
    cases htc : truthy contractData with
    | false => left; simp [run, hread, horacle, herr, ht, hlook, htc]
    | true =>
    cases hens : ensureBuildDir dirname fs with
    | mk fs1 oe =>
    cases oe with
    | some e => left; simp [run, hread, horacle, herr, ht, hlook, htc, hens]
    | none =>
    cases habi : getProp contractData "abi" with
    | error e => left; simp [run, hread, horacle, herr, ht, hlook, htc, hens, habi]
    | ok abi =>
    cases hw1 : writeFileSync fs1 (abiPath dirname) (jsonStringify abi 2) with
    | error e => left; simp [run, hread, horacle, herr, ht, hlook, htc, hens, habi, hw1]
    | ok fs2 =>
    right
    simp only [writesCannotFail, Bool.and_eq_true, Bool.not_eq_true'] at hio
    obtain ⟨⟨hnf, -⟩, hwb⟩ := hio
    obtain ⟨text, r1, hdata1, hfs2⟩ := writeFileSync_ok_inv _ _ _ _ hw1
    obtain ⟨j, hj, -⟩ := jsonStringify_eq_str _ _ _ hdata1
    subst hj
    obtain ⟨code, hcode⟩ := htyped source output contractData j horacle hlook habi
    have hdir : stat fs1 (buildDir dirname) = some .dir :=
      ensureBuildDir_dir_of_ok dirname fs fs1 hens hnf
    have hfb : stat fs1 (binPath dirname) = stat fs (binPath dirname) := by
      have := ensureBuildDir_frame dirname fs (binPath dirname) (binPath_ne_take dirname)
      rwa [hens] at this
    have hsb : stat fs2 (binPath dirname) = stat fs (binPath dirname) := by
      rw [hfs2, stat_set _ _ _ _ (abiPath_ne_nil dirname),
        if_neg (abiPath_ne_binPath dirname), hfb]
    have hsd : stat fs2 (buildDir dirname) = some .dir := by
      rw [hfs2, stat_set _ _ _ _ (abiPath_ne_nil dirname),
        if_neg (fun h => buildDir_ne_abiPath dirname h.symm), hdir]
    obtain ⟨r2, hw2⟩ := writeFileSync_ok fs2 (binPath dirname) code
      (by rw [writableTarget_congr _ _ _ hsb]; exact hwb) (by rw [binPath_dropLast]; exact hsd)
    rw [run_of_steps dirname oracle fs source output errors contractData fs1 (some j) fs2
      (some (.str code)) _ hread horacle herr ht hlook htc hens habi hw1 hcode hw2]
  refine ⟨key, ?_⟩
  rcases key with h | h <;> rw [h] <;> simp

theorem no_partial_success_witness :
    ((run sampleDirname (fun _ => some sampleOutput) sampleFs).written = []
        ∨ (run sampleDirname (fun _ => some sampleOutput) sampleFs).written
          = [abiPath sampleDirname, binPath sampleDirname])
      ∧ (abiPath sampleDirname ∈ (run sampleDirname (fun _ => some sampleOutput) sampleFs).written
        ↔ binPath sampleDirname
          ∈ (run sampleDirname (fun _ => some sampleOutput) sampleFs).written) :=
  no_partial_success sampleDirname (fun _ => some sampleOutput) sampleFs
    (by
      intro source output entry abi horacle hlook habi
      cases horacle
      have hentry : entry = some sampleEntry := by
        have : lookupContract sampleOutput = .ok (some sampleEntry) := rfl
        rw [this] at hlook
        cases hlook
        rfl
      subst hentry
      exact ⟨"6080", rfl⟩)
    (by decide)

/-! ## Reading a serialisation back: white space, strings, numbers -/

theorem skipWs_cons_of_not_ws (c : Char) (r : List Char) (h : isWs c = false) :
    skipWs (c :: r) = c :: r := by
  simp [skipWs, h]

theorem skipWs_append (ws r : List Char) (h : ∀ c ∈ ws, isWs c = true) :
    skipWs (ws ++ r) = skipWs r := by
  induction ws with
  | nil => rfl
  | cons c ws ih =>
    have hc : isWs c = true := h c (by simp)
    simp only [List.cons_append, skipWs, hc, if_true]
    exact ih (fun d hd => h d (by simp [hd]))

theorem hexVal_hexDigit : ∀ d, d < 16 → hexVal (hexDigit d) = some d := by
  decide

theorem char_ofNat_toNat (c : Char) : Char.ofNat c.toNat = c := by
  have hv : c.toNat.isValidChar := c.valid
  unfold Char.ofNat
  rw [dif_pos hv]
  rfl

theorem parseStringBody_quote (cs : List Char) :
    parseStringBody ('"' :: cs) = some ([], cs) := by
  rw [parseStringBody.eq_def]
  simp

theorem parseStringBody_escape (e ch : Char) (t s r : List Char) (he : e ≠ 'u')
    (hu : unescape e = some ch) (ih : parseStringBody t = some (s, r)) :
    parseStringBody ('\\' :: e :: t) = some (ch :: s, r) := by
  rw [parseStringBody.eq_def]
  simp [he, hu, ih]

theorem parseStringBody_plain (c : Char) (t s r : List Char) (hq : c ≠ '"') (hb : c ≠ '\\')
    (h32 : ¬ c.toNat < 32) (ih : parseStringBody t = some (s, r)) :
    parseStringBody (c :: t) = some (c :: s, r) := by
  rw [parseStringBody.eq_def]
  simp [hq, hb, h32, ih]

theorem parseStringBody_unicode (h1 h2 h3 h4 : Char) (a b c d : Nat) (t s r : List Char)
    (ha : hexVal h1 = some a) (hb : hexVal h2 = some b) (hc : hexVal h3 = some c)
    (hd : hexVal h4 = some d)
    (hns : ¬ (0xD800 ≤ ((a * 16 + b) * 16 + c) * 16 + d
      ∧ ((a * 16 + b) * 16 + c) * 16 + d ≤ 0xDFFF))
    (ih : parseStringBody t = some (s, r)) :
    parseStringBody ('\\' :: 'u' :: h1 :: h2 :: h3 :: h4 :: t)
      = some (Char.ofNat (((a * 16 + b) * 16 + c) * 16 + d) :: s, r) := by
  rw [parseStringBody.eq_def]
  simp only [ha, hb, hc, hd, ih]
  simp [hns]

theorem parseStringBody_unicodeEscape (c : Char) (t : List Char) (h : c.toNat < 32)
    (s r : List Char) (ih : parseStringBody t = some (s, r)) :
    parseStringBody (unicodeEscape c ++ t) = some (c :: s, r) := by
  have h1 : c.toNat / 4096 % 16 = 0 := by omega
  have h2 : c.toNat / 256 % 16 = 0 := by omega
  have h3 : c.toNat / 16 % 16 < 16 := Nat.mod_lt _ (by decide)
  have h4 : c.toNat % 16 < 16 := Nat.mod_lt _ (by decide)
  have hval : ((0 * 16 + 0) * 16 + c.toNat / 16 % 16) * 16 + c.toNat % 16 = c.toNat := by omega
  have hz : hexVal (hexDigit 0) = some 0 := hexVal_hexDigit 0 (by decide)
  simp only [unicodeEscape, h1, h2, List.cons_append, List.nil_append]
  rw [parseStringBody_unicode _ _ _ _ 0 0 (c.toNat / 16 % 16) (c.toNat % 16) t s r hz hz
    (hexVal_hexDigit _ h3) (hexVal_hexDigit _ h4) (by omega) ih, hval, char_ofNat_toNat]

theorem parseStringBody_quoteChar (c : Char) (t : List Char)
    (s r : List Char) (ih : parseStringBody t = some (s, r)) :
    parseStringBody (quoteChar c ++ t) = some (c :: s, r) := by
  unfold quoteChar
  split
  · next h => subst h; exact parseStringBody_escape 'b' _ t s r (by decide) rfl ih
  split
  · next h => subst h; exact parseStringBody_escape 't' _ t s r (by decide) rfl ih
  split
  · next h => subst h; exact parseStringBody_escape 'n' _ t s r (by decide) rfl ih
  split
  · next h => subst h; exact parseStringBody_escape 'f' _ t s r (by decide) rfl ih
  split
  · next h => subst h; exact parseStringBody_escape 'r' _ t s r (by decide) rfl ih
  split
  · next h => subst h; exact parseStringBody_escape '"' _ t s r (by decide) rfl ih
  split
  · next h => subst h; exact parseStringBody_escape '\\' _ t s r (by decide) rfl ih
  split
  · next h => exact parseStringBody_unicodeEscape c t h s r ih
  · next hq hb h32 => exact parseStringBody_plain c t s r hq hb h32 ih

theorem parseStringBody_quoteBody (cs rest : List Char) :
    parseStringBody (quoteBody cs ++ '"' :: rest) = some (cs, rest) := by
  induction cs with
  | nil => exact parseStringBody_quote rest
  | cons c cs ih =>
    simp only [quoteBody, List.append_assoc]
    exact parseStringBody_quoteChar c _ cs rest ih

theorem digitChar_facts : ∀ d, d < 10 →
    isDigit (Char.ofNat (48 + d)) = true ∧ (Char.ofNat (48 + d)).toNat - 48 = d
      ∧ (Char.ofNat (48 + d) = '0' → d = 0) ∧ isWs (Char.ofNat (48 + d)) = false
      ∧ Char.ofNat (48 + d) ≠ '-' ∧ Char.ofNat (48 + d) ≠ 'n' ∧ Char.ofNat (48 + d) ≠ 't'
      ∧ Char.ofNat (48 + d) ≠ 'f' ∧ Char.ofNat (48 + d) ≠ '"' ∧ Char.ofNat (48 + d) ≠ '['
      ∧ Char.ofNat (48 + d) ≠ '\x7b' ∧ Char.ofNat (48 + d) ≠ ']'
      ∧ Char.ofNat (48 + d) ≠ '\x7d' := by
  decide

theorem followsValue_head (c : Char) (r : List Char) (h : followsValue (c :: r) = true) :
    isDigit c = false ∧ c ≠ '.' ∧ c ≠ 'e' ∧ c ≠ 'E' := by
  simp only [followsValue, isWs, Bool.or_eq_true, decide_eq_true_eq, or_assoc] at h
  rcases h with h | h | h | h | h | h | h <;> subst h <;> decide

theorem foldl_digits (ds : List Char) (a : Nat) :
    List.foldl (fun a c => a * 10 + (c.toNat - 48)) a ds
      = a * 10 ^ ds.length + List.foldl (fun a c => a * 10 + (c.toNat - 48)) 0 ds := by
  induction ds generalizing a with
  | nil => simp
  | cons c ds ih =>
    simp only [List.foldl_cons, List.length_cons]
    rw [ih (a * 10 + (c.toNat - 48)), ih (0 * 10 + (c.toNat - 48))]
    ring

theorem digitsValue_cons (c : Char) (ds : List Char) :
    digitsValue (c :: ds) = (c.toNat - 48) * 10 ^ ds.length + digitsValue ds := by
  simp only [digitsValue, List.foldl_cons]
  rw [foldl_digits]
  simp

theorem digitsAux_allDigits (fuel n : Nat) (acc : List Char)
    (h : ∀ c ∈ acc, isDigit c = true) : ∀ c ∈ digitsAux fuel n acc, isDigit c = true := by
  induction fuel generalizing n acc with
  | zero => simpa [digitsAux] using h
  | succ fuel ih =>
    unfold digitsAux
    split
    · next hn =>
      intro c hc
      rcases List.mem_cons.1 hc with hc | hc
      · subst hc; exact (digitChar_facts n hn).1
      · exact h c hc
    · apply ih
      intro c hc
      rcases List.mem_cons.1 hc with hc | hc
      · subst hc; exact (digitChar_facts _ (Nat.mod_lt _ (by decide))).1
      · exact h c hc

theorem digitsAux_value (fuel n : Nat) (acc : List Char) (h : n < fuel) :
    digitsValue (digitsAux fuel n acc) = n * 10 ^ acc.length + digitsValue acc := by
  induction fuel generalizing n acc with
  | zero => omega
  | succ fuel ih =>
    unfold digitsAux
    split
    · next hn =>
      rw [digitsValue_cons, (digitChar_facts n hn).2.1]
    · next hn =>
      rw [ih (n / 10) _ (by omega), digitsValue_cons,
        (digitChar_facts _ (Nat.mod_lt n (by decide))).2.1]
      simp only [List.length_cons, pow_succ]
      have hdm : n = 10 * (n / 10) + n % 10 := (Nat.div_add_mod n 10).symm
      conv_rhs => rw [hdm]
      ring

theorem digitsAux_head (fuel n : Nat) (acc : List Char) (h : n < fuel) :
    ∃ d t, digitsAux fuel n acc = Char.ofNat (48 + d) :: t ∧ d < 10
      ∧ (d = 0 → n = 0 ∧ t = acc) := by
  induction fuel generalizing n acc with
  | zero => omega
  | succ fuel ih =>
    unfold digitsAux
    split
    · next hn => exact ⟨n, acc, rfl, hn, fun h0 => ⟨h0, rfl⟩⟩
    · next hn =>
      obtain ⟨d, t, heq, hd, h0⟩ := ih (n / 10) (Char.ofNat (48 + n % 10) :: acc) (by omega)
      refine ⟨d, t, heq, hd, fun hz => ?_⟩
      have := (h0 hz).1
      omega

theorem takeDigits_append (ds rest : List Char) (h : ∀ c ∈ ds, isDigit c = true)
    (hrest : ∀ c r, rest = c :: r → isDigit c = false) :
    takeDigits (ds ++ rest) = (ds, rest) := by
  induction ds with
  | nil =>
    cases rest with
    | nil => rfl
    | cons c r => simp [takeDigits, hrest c r rfl]
  | cons c ds ih =>
    have hc : isDigit c = true := h c (by simp)
    have := ih (fun d hd => h d (by simp [hd]))
    simp [takeDigits, hc, this]

theorem parseUnsigned_natToString (n : Nat) (rest : List Char) (hn : n ≤ maxSafeInteger)
    (hrest : followsValue rest = true) :
    parseUnsigned (natToString n ++ rest) = some (n, rest) := by
  obtain ⟨d, t, heq, hd, h0⟩ := digitsAux_head (n + 1) n [] (Nat.lt_succ_self n)
  have hall := digitsAux_allDigits (n + 1) n [] (by simp)
  have hval := digitsAux_value (n + 1) n [] (Nat.lt_succ_self n)
  have hnd : ∀ c r, rest = c :: r → isDigit c = false := by
    intro c r hr; subst hr; exact (followsValue_head c r hrest).1
  have htake := takeDigits_append (natToString n) rest hall hnd
  simp only [natToString] at htake ⊢
  simp only [digitsValue, List.foldl_nil, List.length_nil, pow_zero, mul_one, add_zero]
    at hval
  unfold parseUnsigned
  rw [htake, heq]
  simp only
  rw [← heq]
  have hlead : ¬ (Char.ofNat (48 + d) = '0' ∧ t ≠ []) := by
    rintro ⟨hc, ht⟩
    exact ht (h0 ((digitChar_facts d hd).2.2.1 hc)).2
  have hsafe : ¬ maxSafeInteger < digitsValue (digitsAux (n + 1) n []) := by
    simp only [digitsValue]; omega
  have hv : digitsValue (digitsAux (n + 1) n []) = n := by simpa [digitsValue] using hval
  rw [if_neg hlead, if_neg hsafe, hv]
  cases rest with
  | nil => rfl
  | cons c r =>
    obtain ⟨-, h1, h2, h3⟩ := followsValue_head c r hrest
    simp [h1, h2, h3]

theorem parseNumber_numberToString (n : Int) (rest : List Char)
    (hn : n.natAbs ≤ maxSafeInteger) (hrest : followsValue rest = true) :
    parseNumber (numberToString n ++ rest) = some (.num n, rest) := by
  unfold numberToString
  split
  · next hneg =>
    have hne : n.natAbs ≠ 0 := by omega
    have hback : -(n.natAbs : Int) = n := by omega
    rw [List.cons_append]
    unfold parseNumber
    simp only [↓reduceIte, parseUnsigned_natToString _ _ hn hrest, hne, hback]
  · next hpos =>
    obtain ⟨d, t, heq, hd, -⟩ := digitsAux_head (n.natAbs + 1) n.natAbs [] (Nat.lt_succ_self _)
    have hp := parseUnsigned_natToString _ rest hn hrest
    have hback : (n.natAbs : Int) = n := by omega
    simp only [natToString] at hp ⊢
    rw [heq] at hp ⊢
    simp only [List.cons_append] at hp ⊢
    unfold parseNumber
    simp only [(digitChar_facts d hd).2.2.2.2.1, if_false, hp, hback]

/-! ## Reading a serialisation back: object members in property order -/

theorem keyBefore_ne (k' k : String) (h : keyBefore k' k = true) : k' ≠ k := by
  intro heq
  subst heq
  unfold keyBefore at h
  split at h <;> simp_all

theorem lookupKey_none_of_before (k : String) (o : List (String × Json))
    (h : ∀ kv ∈ o, keyBefore kv.1 k = true) : lookupKey k o = none := by
  induction o with
  | nil => rfl
  | cons kv o ih =>
    obtain ⟨k', v'⟩ := kv
    have hne : k' ≠ k := keyBefore_ne k' k (h (k', v') (by simp))
    simp only [lookupKey, hne, if_false]
    exact ih (fun kv hkv => h kv (by simp [hkv]))

theorem insertProperty_of_before (k : String) (v : Json) (o : List (String × Json))
    (h : ∀ kv ∈ o, keyBefore kv.1 k = true) : insertProperty k v o = o ++ [(k, v)] := by
  induction o with
  | nil => rfl
  | cons kv o ih =>
    obtain ⟨k', v'⟩ := kv
    have hb : keyBefore k' k = true := h (k', v') (by simp)
    simp only [insertProperty, hb, if_true, List.cons_append]
    rw [ih (fun kv hkv => h kv (by simp [hkv]))]

theorem createDataProperty_of_before (k : String) (v : Json) (o : List (String × Json))
    (h : ∀ kv ∈ o, keyBefore kv.1 k = true) : createDataProperty o k v = o ++ [(k, v)] := by
  simp [createDataProperty, lookupKey_none_of_before k o h, insertProperty_of_before k v o h]

theorem jsKeyOrder_before (l1 l2 : List String) (k : String)
    (h : jsKeyOrder (l1 ++ k :: l2) = true) : ∀ a ∈ l1, keyBefore a k = true := by
  induction l1 with
  | nil => simp
  | cons b l1 ih =>
    simp only [List.cons_append, jsKeyOrder, Bool.and_eq_true, List.all_eq_true] at h
    intro a ha
    rcases List.mem_cons.1 ha with ha | ha
    · subst ha; exact h.1 k (by simp)
    · exact ih h.2 a ha

theorem foldl_createDataProperty (rest acc : List (String × Json))
    (h : jsKeyOrder ((acc ++ rest).map Prod.fst) = true) :
    rest.foldl (fun o kv => createDataProperty o kv.1 kv.2) acc = acc ++ rest := by
  induction rest generalizing acc with
  | nil => simp
  | cons kv rest ih =>
    obtain ⟨k, v⟩ := kv
    have hb : ∀ e ∈ acc, keyBefore e.1 k = true := by
      intro e he
      have h' : jsKeyOrder (acc.map Prod.fst ++ k :: rest.map Prod.fst) = true := by
        simpa using h
      exact jsKeyOrder_before _ _ _ h' e.1 (List.mem_map_of_mem _ he)
    simp only [List.foldl_cons]
    rw [createDataProperty_of_before k v acc hb, ih (acc ++ [(k, v)]) (by simpa using h)]
    simp

theorem buildObject_of_jsKeyOrder (members : List (String × Json))
    (h : jsKeyOrder (members.map Prod.fst) = true) : buildObject members = members := by
  have := foldl_createDataProperty members [] (by simpa using h)
  simpa [buildObject] using this

/-! ## Reading a serialisation back: values -/

theorem parseValue_skipWs (fuel : Nat) (ws t : List Char) (h : ∀ c ∈ ws, isWs c = true) :
    parseValue fuel (ws ++ t) = parseValue fuel t := by
  cases fuel with
  | zero => simp [parseValue]
  | succ fuel => rw [parseValue, parseValue, skipWs_append ws t h]

theorem parseElements_skipWs (fuel : Nat) (ws t : List Char) (h : ∀ c ∈ ws, isWs c = true) :
    parseElements fuel (ws ++ t) = parseElements fuel t := by
  cases fuel with
  | zero => simp [parseElements]
  | succ fuel => rw [parseElements, parseElements, parseValue_skipWs fuel ws t h]

theorem parseMembers_skipWs (fuel : Nat) (ws t : List Char) (h : ∀ c ∈ ws, isWs c = true) :
    parseMembers fuel (ws ++ t) = parseMembers fuel t := by
  cases fuel with
  | zero => simp [parseMembers]
  | succ fuel => rw [parseMembers, parseMembers, skipWs_append ws t h]

theorem parseValue_null (fuel : Nat) (r : List Char) :
    parseValue (fuel + 1) ('n' :: 'u' :: 'l' :: 'l' :: r) = some (.null, r) := by
  simp [parseValue, skipWs, isWs]

theorem parseValue_true (fuel : Nat) (r : List Char) :
    parseValue (fuel + 1) ('t' :: 'r' :: 'u' :: 'e' :: r) = some (.bool true, r) := by
  simp [parseValue, skipWs, isWs]

theorem parseValue_false (fuel : Nat) (r : List Char) :
    parseValue (fuel + 1) ('f' :: 'a' :: 'l' :: 's' :: 'e' :: r) = some (.bool false, r) := by
  simp [parseValue, skipWs, isWs]

theorem parseValue_str (fuel : Nat) (t s r : List Char)
    (h : parseStringBody t = some (s, r)) :
    parseValue (fuel + 1) ('"' :: t) = some (.str (String.mk s), r) := by
  simp [parseValue, skipWs, isWs, h]

theorem parseValue_num (fuel : Nat) (c : Char) (r : List Char) (hws : isWs c = false)
    (h1 : c ≠ 'n') (h2 : c ≠ 't') (h3 : c ≠ 'f') (h4 : c ≠ '"') (h5 : c ≠ '[')
    (h6 : c ≠ '\x7b') :
    parseValue (fuel + 1) (c :: r) = parseNumber (c :: r) := by
  simp [parseValue, skipWs, hws, h1, h2, h3, h4, h5, h6]

theorem parseValue_arr_empty (fuel : Nat) (r : List Char) :
    parseValue (fuel + 1) ('[' :: ']' :: r) = some (.arr [], r) := by
  simp [parseValue, skipWs, isWs]

theorem parseValue_obj_empty (fuel : Nat) (r : List Char) :
    parseValue (fuel + 1) ('\x7b' :: '\x7d' :: r) = some (.obj [], r) := by
  simp [parseValue, skipWs, isWs]

theorem parseValue_arr (fuel : Nat) (ws : List Char) (d : Char) (t : List Char)
    (xs : List Json) (r : List Char) (hws : ∀ c ∈ ws, isWs c = true) (hd : isWs d = false)
    (hne : d ≠ ']') (h : parseElements fuel (d :: t) = some (xs, r)) :
    parseValue (fuel + 1) ('[' :: (ws ++ d :: t)) = some (.arr xs, r) := by
  have h1 : skipWs ('[' :: (ws ++ d :: t)) = '[' :: (ws ++ d :: t) :=
    skipWs_cons_of_not_ws _ _ (by decide)
  have h2 : skipWs (ws ++ d :: t) = d :: t := by
    rw [skipWs_append _ _ hws, skipWs_cons_of_not_ws _ _ hd]
  rw [parseValue]
  simp [h1, h2, hne, h]

theorem parseValue_obj (fuel : Nat) (ws : List Char) (d : Char) (t : List Char)
    (kvs : List (String × Json)) (r : List Char) (hws : ∀ c ∈ ws, isWs c = true)
    (hd : isWs d = false) (hne : d ≠ '\x7d')
    (h : parseMembers fuel (d :: t) = some (kvs, r)) :
    parseValue (fuel + 1) ('\x7b' :: (ws ++ d :: t)) = some (.obj (buildObject kvs), r) := by
  have h1 : skipWs ('\x7b' :: (ws ++ d :: t)) = '\x7b' :: (ws ++ d :: t) :=
    skipWs_cons_of_not_ws _ _ (by decide)
  have h2 : skipWs (ws ++ d :: t) = d :: t := by
    rw [skipWs_append _ _ hws, skipWs_cons_of_not_ws _ _ hd]
  rw [parseValue]
  simp [h1, h2, hne, h]

theorem parseValue_arr_of_head (fuel : Nat) (ws T : List Char) (xs : List Json)
    (r : List Char) (hws : ∀ c ∈ ws, isWs c = true)
    (hhead : ∃ d t, T = d :: t ∧ isWs d = false ∧ d ≠ ']' ∧ d ≠ '\x7d')
    (h : parseElements fuel T = some (xs, r)) :
    parseValue (fuel + 1) ('[' :: (ws ++ T)) = some (.arr xs, r) := by
  obtain ⟨d, t, hT, hd, hne, -⟩ := hhead
  subst hT
  exact parseValue_arr fuel ws d t xs r hws hd hne h

theorem parseValue_obj_of_head (fuel : Nat) (ws T : List Char) (kvs : List (String × Json))
    (r : List Char) (hws : ∀ c ∈ ws, isWs c = true)
    (hhead : ∃ d t, T = d :: t ∧ isWs d = false ∧ d ≠ ']' ∧ d ≠ '\x7d')
    (h : parseMembers fuel T = some (kvs, r)) :
    parseValue (fuel + 1) ('\x7b' :: (ws ++ T)) = some (.obj (buildObject kvs), r) := by
  obtain ⟨d, t, hT, hd, -, hne⟩ := hhead
  subst hT
  exact parseValue_obj fuel ws d t kvs r hws hd hne h

theorem parseElements_last (fuel : Nat) (t ws rest : List Char) (x : Json)
    (hws : ∀ c ∈ ws, isWs c = true)
    (h : parseValue fuel t = some (x, ws ++ ']' :: rest)) :
    parseElements (fuel + 1) t = some ([x], rest) := by
  have h2 : skipWs (ws ++ ']' :: rest) = ']' :: rest := by
    rw [skipWs_append _ _ hws, skipWs_cons_of_not_ws _ _ (by decide)]
  rw [parseElements]
  simp [h, h2]

theorem parseElements_more (fuel : Nat) (t t' rest : List Char) (x : Json) (xs : List Json)
    (h : parseValue fuel t = some (x, ',' :: t'))
    (h' : parseElements fuel t' = some (xs, rest)) :
    parseElements (fuel + 1) t = some (x :: xs, rest) := by
  have h2 : skipWs (',' :: t') = ',' :: t' := skipWs_cons_of_not_ws _ _ (by decide)
  rw [parseElements]
  simp [h, h2, h']

theorem parseMembers_last (fuel : Nat) (k : String) (ws tv ws2 rest : List Char) (v : Json)
    (hws : ∀ c ∈ ws, isWs c = true) (hws2 : ∀ c ∈ ws2, isWs c = true)
    (h : parseValue fuel tv = some (v, ws2 ++ '\x7d' :: rest)) :
    parseMembers (fuel + 1) (quoteJSONString k ++ ':' :: (ws ++ tv)) = some ([(k, v)], rest) := by
  have h1 : skipWs ('"' :: (quoteBody k.data ++ '"' :: ':' :: (ws ++ tv)))
      = '"' :: (quoteBody k.data ++ '"' :: ':' :: (ws ++ tv)) :=
    skipWs_cons_of_not_ws _ _ (by decide)
  have h2 : skipWs (':' :: (ws ++ tv)) = ':' :: (ws ++ tv) :=
    skipWs_cons_of_not_ws _ _ (by decide)
  have h3 : skipWs (ws2 ++ '\x7d' :: rest) = '\x7d' :: rest := by
    rw [skipWs_append _ _ hws2, skipWs_cons_of_not_ws _ _ (by decide)]
  have h4 : parseValue fuel (ws ++ tv) = some (v, ws2 ++ '\x7d' :: rest) := by
    rw [parseValue_skipWs _ _ _ hws, h]
  simp only [quoteJSONString, List.cons_append, List.append_assoc, List.nil_append]
  rw [parseMembers]
  simp [h1, parseStringBody_quoteBody, h2, h3, h4]

theorem parseMembers_more (fuel : Nat) (k : String) (ws tv t' rest : List Char) (v : Json)
    (kvs : List (String × Json)) (hws : ∀ c ∈ ws, isWs c = true)
    (h : parseValue fuel tv = some (v, ',' :: t'))
    (h' : parseMembers fuel t' = some (kvs, rest)) :
    parseMembers (fuel + 1) (quoteJSONString k ++ ':' :: (ws ++ tv))
      = some ((k, v) :: kvs, rest) := by
  have h1 : skipWs ('"' :: (quoteBody k.data ++ '"' :: ':' :: (ws ++ tv)))
      = '"' :: (quoteBody k.data ++ '"' :: ':' :: (ws ++ tv)) :=
    skipWs_cons_of_not_ws _ _ (by decide)
  have h2 : skipWs (':' :: (ws ++ tv)) = ':' :: (ws ++ tv) :=
    skipWs_cons_of_not_ws _ _ (by decide)
  have h3 : skipWs (',' :: t') = ',' :: t' := skipWs_cons_of_not_ws _ _ (by decide)
  have h4 : parseValue fuel (ws ++ tv) = some (v, ',' :: t') := by
    rw [parseValue_skipWs _ _ _ hws, h]
  simp only [quoteJSONString, List.cons_append, List.append_assoc, List.nil_append]
  rw [parseMembers]
  simp [h1, parseStringBody_quoteBody, h2, h3, h4, h']

theorem followsValue_ws_append (ws : List Char) (c : Char) (rest : List Char)
    (hws : ∀ d ∈ ws, isWs d = true) (hc : followsValue (c :: rest) = true) :
    followsValue (ws ++ c :: rest) = true := by
  cases ws with
  | nil => exact hc
  | cons d ws => simp [followsValue, hws d (by simp)]

theorem serialize_head (gap indent : List Char) (v : Json) :
    ∃ d t, serializeJSONProperty gap indent v = d :: t ∧ isWs d = false ∧ d ≠ ']'
      ∧ d ≠ '\x7d' := by
  cases v with
  | null =>
    simp only [serializeJSONProperty]
    exact ⟨_, _, rfl, by decide, by decide, by decide⟩
  | bool b =>
    cases b
    · simp only [serializeJSONProperty]
      exact ⟨_, _, rfl, by decide, by decide, by decide⟩
    · simp only [serializeJSONProperty]
      exact ⟨_, _, rfl, by decide, by decide, by decide⟩
  | num n =>
    simp only [serializeJSONProperty, numberToString]
    split
    · exact ⟨_, _, rfl, by decide, by decide, by decide⟩
    · obtain ⟨d, t, heq, hd, -⟩ := digitsAux_head (n.natAbs + 1) n.natAbs []
        (Nat.lt_succ_self _)
      have hf := digitChar_facts d hd
      exact ⟨_, t, heq, hf.2.2.2.1, hf.2.2.2.2.2.2.2.2.2.2.2.1, hf.2.2.2.2.2.2.2.2.2.2.2.2⟩
  | str s =>
    simp only [serializeJSONProperty, quoteJSONString]
    exact ⟨_, _, rfl, by decide, by decide, by decide⟩
  | arr items =>
    simp only [serializeJSONProperty]
    split
    · exact ⟨_, _, rfl, by decide, by decide, by decide⟩
    · split
      · exact ⟨_, _, rfl, by decide, by decide, by decide⟩
      · exact ⟨_, _, rfl, by decide, by decide, by decide⟩
  | obj members =>
    simp only [serializeJSONProperty]
    split
    · exact ⟨_, _, rfl, by decide, by decide, by decide⟩
    · split
      · exact ⟨_, _, rfl, by decide, by decide, by decide⟩
      · exact ⟨_, _, rfl, by decide, by decide, by decide⟩

theorem serialize_arr_cons (gap indent : List Char) (x : Json) (xs : List Json)
    (hgap : ∀ c ∈ gap, isWs c = true) (hind : ∀ c ∈ indent, isWs c = true) :
    ∃ ws1 ws2, (∀ c ∈ ws1, isWs c = true) ∧ (∀ c ∈ ws2, isWs c = true)
      ∧ serializeJSONProperty gap indent (.arr (x :: xs))
        = '[' :: (ws1 ++ (joinWith (',' :: ws1) (serializeElements gap (indent ++ gap) (x :: xs))
            ++ (ws2 ++ [']']))) := by
  by_cases hg : gap = []
  · refine ⟨[], [], by simp, by simp, ?_⟩
    simp [serializeJSONProperty, serializeElements, hg]
  · refine ⟨'\n' :: (indent ++ gap), '\n' :: indent, ?_, ?_, ?_⟩
    · intro c hc
      rcases List.mem_cons.1 hc with hc | hc
      · subst hc; decide
      · rcases List.mem_append.1 hc with hc | hc
        · exact hind c hc
        · exact hgap c hc
    · intro c hc
      rcases List.mem_cons.1 hc with hc | hc
      · subst hc; decide
      · exact hind c hc
    · simp [serializeJSONProperty, serializeElements, hg]

theorem serialize_obj_cons (gap indent : List Char) (kv : String × Json)
    (kvs : List (String × Json))
    (hgap : ∀ c ∈ gap, isWs c = true) (hind : ∀ c ∈ indent, isWs c = true) :
    ∃ ws1 ws2, (∀ c ∈ ws1, isWs c = true) ∧ (∀ c ∈ ws2, isWs c = true)
      ∧ serializeJSONProperty gap indent (.obj (kv :: kvs))
        = '\x7b' :: (ws1 ++ (joinWith (',' :: ws1)
            (serializeMembers gap (indent ++ gap) (kv :: kvs)) ++ (ws2 ++ ['\x7d']))) := by
  obtain ⟨k, v⟩ := kv
  by_cases hg : gap = []
  · refine ⟨[], [], by simp, by simp, ?_⟩
    simp [serializeJSONProperty, serializeMembers, hg]
  · refine ⟨'\n' :: (indent ++ gap), '\n' :: indent, ?_, ?_, ?_⟩
    · intro c hc
      rcases List.mem_cons.1 hc with hc | hc
      · subst hc; decide
      · rcases List.mem_append.1 hc with hc | hc
        · exact hind c hc
        · exact hgap c hc
    · intro c hc
      rcases List.mem_cons.1 hc with hc | hc
      · subst hc; decide
      · exact hind c hc
    · simp [serializeJSONProperty, serializeMembers, hg]

theorem member_part (gap indent : List Char) (k : String) (v : Json) :
    ∃ ws, (∀ c ∈ ws, isWs c = true)
      ∧ quoteJSONString k ++ (if gap = [] then [':'] else [':', ' '])
          ++ serializeJSONProperty gap indent v
        = quoteJSONString k ++ ':' :: (ws ++ serializeJSONProperty gap indent v) := by
  by_cases hg : gap = []
  · exact ⟨[], by simp, by simp [hg]⟩
  · refine ⟨[' '], ?_, by simp [hg]⟩
    intro c hc
    simp only [List.mem_singleton] at hc
    subst hc
    decide

theorem joinWith_head (sep : List Char) (p : List Char) (ps : List (List Char))
    (h : ∃ d t, p = d :: t ∧ isWs d = false ∧ d ≠ ']' ∧ d ≠ '\x7d') (tail : List Char) :
    ∃ d t, joinWith sep (p :: ps) ++ tail = d :: t ∧ isWs d = false ∧ d ≠ ']'
      ∧ d ≠ '\x7d' := by
  obtain ⟨d, t, hp, h1, h2, h3⟩ := h
  subst hp
  cases ps with
  | nil => exact ⟨d, t ++ tail, by simp [joinWith], h1, h2, h3⟩
  | cons q qs => exact ⟨d, _, by simp [joinWith]; rfl, h1, h2, h3⟩

mutual
theorem parseValue_serialize (gap : List Char) (hgap : ∀ c ∈ gap, isWs c = true) :
    ∀ (v : Json) (indent rest : List Char) (fuel : Nat), (∀ c ∈ indent, isWs c = true) →
      v.wf = true → v.cost ≤ fuel → followsValue rest = true →
      parseValue fuel (serializeJSONProperty gap indent v ++ rest) = some (v, rest)
  | .null, indent, rest, fuel, _, _, hc, _ => by
    obtain ⟨f, rfl⟩ : ∃ f, fuel = f + 1 := ⟨fuel - 1, by simp [Json.cost] at hc; omega⟩
    simp only [serializeJSONProperty, List.cons_append, List.nil_append]
    exact parseValue_null f rest
  | .bool true, indent, rest, fuel, _, _, hc, _ => by
    obtain ⟨f, rfl⟩ : ∃ f, fuel = f + 1 := ⟨fuel - 1, by simp [Json.cost] at hc; omega⟩
    simp only [serializeJSONProperty, List.cons_append, List.nil_append]
    exact parseValue_true f rest
  | .bool false, indent, rest, fuel, _, _, hc, _ => by
    obtain ⟨f, rfl⟩ : ∃ f, fuel = f + 1 := ⟨fuel - 1, by simp [Json.cost] at hc; omega⟩
    simp only [serializeJSONProperty, List.cons_append, List.nil_append]
    exact parseValue_false f rest
  | .num n, indent, rest, fuel, _, hwf, hc, hrest => by
    obtain ⟨f, rfl⟩ : ∃ f, fuel = f + 1 := ⟨fuel - 1, by simp [Json.cost] at hc; omega⟩
    have hn : n.natAbs ≤ maxSafeInteger := by simpa [Json.wf] using hwf
    have hp := parseNumber_numberToString n rest hn hrest
    simp only [serializeJSONProperty]
    by_cases hneg : n < 0
    · have hs : numberToString n = '-' :: natToString n.natAbs := by
        simp [numberToString, hneg]
      rw [hs, List.cons_append] at hp ⊢
      rw [parseValue_num f '-' _ (by decide) (by decide) (by decide) (by decide) (by decide)
        (by decide) (by decide)]
      exact hp
    · obtain ⟨d, t, heq, hd, -⟩ := digitsAux_head (n.natAbs + 1) n.natAbs []
        (Nat.lt_succ_self _)
      have hf := digitChar_facts d hd
      have hs : numberToString n = Char.ofNat (48 + d) :: t := by
        simp [numberToString, hneg, natToString, heq]
      rw [hs, List.cons_append] at hp ⊢
      rw [parseValue_num f _ _ hf.2.2.2.1 hf.2.2.2.2.2.1 hf.2.2.2.2.2.2.1 hf.2.2.2.2.2.2.2.1
        hf.2.2.2.2.2.2.2.2.1 hf.2.2.2.2.2.2.2.2.2.1 hf.2.2.2.2.2.2.2.2.2.2.1]
      exact hp
  | .str s, indent, rest, fuel, _, _, hc, _ => by
    obtain ⟨f, rfl⟩ : ∃ f, fuel = f + 1 := ⟨fuel - 1, by simp [Json.cost] at hc; omega⟩
    simp only [serializeJSONProperty, quoteJSONString, List.cons_append, List.append_assoc,
      List.nil_append]
    exact parseValue_str f _ s.data rest (parseStringBody_quoteBody s.data rest)
  | .arr [], indent, rest, fuel, _, _, hc, _ => by
    obtain ⟨f, rfl⟩ : ∃ f, fuel = f + 1 := ⟨fuel - 1, by simp [Json.cost] at hc; omega⟩
    simp only [serializeJSONProperty, serializeElements, List.cons_append, List.nil_append]
    exact parseValue_arr_empty f rest
  | .arr (x :: xs), indent, rest, fuel, hind, hwf, hc, _ => by
    obtain ⟨f, rfl⟩ : ∃ f, fuel = f + 1 := ⟨fuel - 1, by simp [Json.cost] at hc; omega⟩
    obtain ⟨ws1, ws2, hws1, hws2, hshape⟩ := serialize_arr_cons gap indent x xs hgap hind
    have hind' : ∀ c ∈ indent ++ gap, isWs c = true := by
      intro c hc
      rcases List.mem_append.1 hc with hc | hc
      · exact hind c hc
      · exact hgap c hc
    have hel := parseElements_serialize gap hgap (x :: xs) (indent ++ gap) ws1 ws2 rest f
      hind' hws1 hws2 (by simp) (by simpa [Json.wf] using hwf)
      (by simp only [Json.cost] at hc; omega)
    rw [hshape]
    simp only [List.cons_append, List.append_assoc, List.nil_append]
    refine parseValue_arr_of_head f ws1 _ (x :: xs) rest hws1 ?_ hel
    simp only [serializeElements]
    exact joinWith_head _ _ _ (serialize_head gap (indent ++ gap) x) _
  | .obj [], indent, rest, fuel, _, _, hc, _ => by
    obtain ⟨f, rfl⟩ : ∃ f, fuel = f + 1 := ⟨fuel - 1, by simp [Json.cost] at hc; omega⟩
    simp only [serializeJSONProperty, serializeMembers, List.cons_append, List.nil_append]
    exact parseValue_obj_empty f rest
  | .obj ((k, v) :: kvs), indent, rest, fuel, hind, hwf, hc, _ => by
    obtain ⟨f, rfl⟩ : ∃ f, fuel = f + 1 := ⟨fuel - 1, by simp [Json.cost] at hc; omega⟩
    obtain ⟨ws1, ws2, hws1, hws2, hshape⟩ := serialize_obj_cons gap indent (k, v) kvs hgap hind
    have hind' : ∀ c ∈ indent ++ gap, isWs c = true := by
      intro c hc
      rcases List.mem_append.1 hc with hc | hc
      · exact hind c hc
      · exact hgap c hc
    simp only [Json.wf, Bool.and_eq_true] at hwf
    have hel := parseMembers_serialize gap hgap ((k, v) :: kvs) (indent ++ gap) ws1 ws2 rest f
      hind' hws1 hws2 (by simp) hwf.2 (by simp only [Json.cost] at hc; omega)
    rw [hshape]
    simp only [List.cons_append, List.append_assoc, List.nil_append]
    have hbuild := buildObject_of_jsKeyOrder ((k, v) :: kvs) hwf.1
    have := parseValue_obj_of_head f ws1 _ ((k, v) :: kvs) rest hws1 ?_ hel
    · rw [hbuild] at this
      exact this
    · simp only [serializeMembers]
      refine joinWith_head _ _ _ ?_ _
      simp only [quoteJSONString, List.cons_append]
      exact ⟨'"', _, rfl, by decide, by decide, by decide⟩
theorem parseElements_serialize (gap : List Char) (hgap : ∀ c ∈ gap, isWs c = true) :
    ∀ (xs : List Json) (indent sepWs endWs rest : List Char) (fuel : Nat),
      (∀ c ∈ indent, isWs c = true) → (∀ c ∈ sepWs, isWs c = true) →
      (∀ c ∈ endWs, isWs c = true) → xs ≠ [] → wfElements xs = true →
      costElements xs ≤ fuel →
      parseElements fuel (joinWith (',' :: sepWs) (serializeElements gap indent xs)
        ++ (endWs ++ ']' :: rest)) = some (xs, rest)
  | [], _, _, _, _, _, _, _, _, hne, _, _ => absurd rfl hne
  | x :: xs, indent, sepWs, endWs, rest, fuel, hind, hsep, hend, _, hwf, hc => by
    obtain ⟨f, rfl⟩ : ∃ f, fuel = f + 1 := ⟨fuel - 1, by simp [costElements] at hc; omega⟩
    simp only [wfElements, Bool.and_eq_true] at hwf
    simp only [costElements] at hc
    have ihx := parseValue_serialize gap hgap x indent
    have ihxs := parseElements_serialize gap hgap xs indent sepWs endWs rest f hind hsep hend
    cases xs with
    | nil =>
      simp only [serializeElements, joinWith]
      exact parseElements_last f _ endWs rest x hend
        (ihx _ f hind hwf.1 (by omega)
          (followsValue_ws_append endWs ']' rest hend (by simp [followsValue])))
    | cons y ys =>
      simp only [serializeElements, joinWith, List.append_assoc, List.cons_append]
      have h2 := ihxs (by simp) hwf.2 (by omega)
      simp only [serializeElements] at h2
      refine parseElements_more f _ _ rest x (y :: ys)
        (ihx _ f hind hwf.1 (by omega) (by simp [followsValue])) ?_
      rw [parseElements_skipWs _ _ _ hsep]
      exact h2
theorem parseMembers_serialize (gap : List Char) (hgap : ∀ c ∈ gap, isWs c = true) :
    ∀ (kvs : List (String × Json)) (indent sepWs endWs rest : List Char) (fuel : Nat),
      (∀ c ∈ indent, isWs c = true) → (∀ c ∈ sepWs, isWs c = true) →
      (∀ c ∈ endWs, isWs c = true) → kvs ≠ [] → wfMembers kvs = true →
      costMembers kvs ≤ fuel →
      parseMembers fuel (joinWith (',' :: sepWs) (serializeMembers gap indent kvs)
        ++ (endWs ++ '\x7d' :: rest)) = some (kvs, rest)
  | [], _, _, _, _, _, _, _, _, hne, _, _ => absurd rfl hne
  | (k, v) :: kvs, indent, sepWs, endWs, rest, fuel, hind, hsep, hend, _, hwf, hc => by
    obtain ⟨f, rfl⟩ : ∃ f, fuel = f + 1 := ⟨fuel - 1, by simp [costMembers] at hc; omega⟩
    simp only [wfMembers, Bool.and_eq_true] at hwf
    simp only [costMembers] at hc
    have ihv := parseValue_serialize gap hgap v indent
    have ihkvs := parseMembers_serialize gap hgap kvs indent sepWs endWs rest f hind hsep hend
    obtain ⟨wsc, hwsc, hpart⟩ := member_part gap indent k v
    cases kvs with
    | nil =>
      simp only [serializeMembers, joinWith]
      rw [hpart]
      simp only [List.append_assoc, List.cons_append]
      exact parseMembers_last f k wsc _ endWs rest v hwsc hend
        (ihv _ f hind hwf.1 (by omega)
          (followsValue_ws_append endWs '\x7d' rest hend (by simp [followsValue])))
    | cons kv' kvs' =>
      obtain ⟨k', v'⟩ := kv'
      simp only [serializeMembers, joinWith]
      rw [hpart]
      simp only [List.append_assoc, List.cons_append]
      have h2 := ihkvs (by simp) hwf.2 (by omega)
      simp only [serializeMembers, List.append_assoc] at h2
      refine parseMembers_more f k wsc _ _ rest v ((k', v') :: kvs') hwsc
        (ihv _ f hind hwf.1 (by omega) (by simp [followsValue])) ?_
      rw [parseMembers_skipWs _ _ _ hsep]
      exact h2
end

mutual
theorem cost_le_length (gap : List Char) (hgap : ∀ c ∈ gap, isWs c = true) :
    ∀ (v : Json) (indent : List Char), (∀ c ∈ indent, isWs c = true) →
      v.cost ≤ (serializeJSONProperty gap indent v).length
  | .null, _, _ => by simp [Json.cost, serializeJSONProperty]
  | .bool true, _, _ => by simp [Json.cost, serializeJSONProperty]
  | .bool false, _, _ => by simp [Json.cost, serializeJSONProperty]
  | .num n, indent, _ => by
    obtain ⟨d, t, h, -⟩ := serialize_head gap indent (.num n)
    rw [h]
    simp [Json.cost]
  | .str s, _, _ => by simp [Json.cost, serializeJSONProperty, quoteJSONString]
  | .arr [], _, _ => by simp [Json.cost, costElements, serializeJSONProperty, serializeElements]
  | .arr (x :: xs), indent, hind => by
    obtain ⟨ws1, ws2, -, -, hshape⟩ := serialize_arr_cons gap indent x xs hgap hind
    have hind' : ∀ c ∈ indent ++ gap, isWs c = true := by
      intro c hc
      rcases List.mem_append.1 hc with hc | hc
      · exact hind c hc
      · exact hgap c hc
    have := costElements_le_length gap hgap (x :: xs) (indent ++ gap) ws1 hind'
    rw [hshape]
    simp only [Json.cost, List.length_cons, List.length_append, List.length_nil]
    omega
  | .obj [], _, _ => by simp [Json.cost, costMembers, serializeJSONProperty, serializeMembers]
  | .obj ((k, v) :: kvs), indent, hind => by
    obtain ⟨ws1, ws2, -, -, hshape⟩ := serialize_obj_cons gap indent (k, v) kvs hgap hind
    have hind' : ∀ c ∈ indent ++ gap, isWs c = true := by
      intro c hc
      rcases List.mem_append.1 hc with hc | hc
      · exact hind c hc
      · exact hgap c hc
    have := costMembers_le_length gap hgap ((k, v) :: kvs) (indent ++ gap) ws1 hind'
    rw [hshape]
    simp only [Json.cost, List.length_cons, List.length_append, List.length_nil]
    omega
theorem costElements_le_length (gap : List Char) (hgap : ∀ c ∈ gap, isWs c = true) :
    ∀ (xs : List Json) (indent sepWs : List Char), (∀ c ∈ indent, isWs c = true) →
      costElements xs
        ≤ (joinWith (',' :: sepWs) (serializeElements gap indent xs)).length + 1
  | [], _, _, _ => by simp [costElements]
  | x :: xs, indent, sepWs, hind => by
    have hx := cost_le_length gap hgap x indent hind
    have hxs := costElements_le_length gap hgap xs indent sepWs hind
    cases xs with
    | nil =>
      simp only [costElements, serializeElements, joinWith]
      omega
    | cons y ys =>
      simp only [serializeElements] at hxs
      simp only [costElements, serializeElements, joinWith, List.length_append,
        List.length_cons] at hxs ⊢
      omega
theorem costMembers_le_length (gap : List Char) (hgap : ∀ c ∈ gap, isWs c = true) :
    ∀ (kvs : List (String × Json)) (indent sepWs : List Char),
      (∀ c ∈ indent, isWs c = true) →
      costMembers kvs
        ≤ (joinWith (',' :: sepWs) (serializeMembers gap indent kvs)).length + 1
  | [], _, _, _ => by simp [costMembers]
  | (k, v) :: kvs, indent, sepWs, hind => by
    have hv := cost_le_length gap hgap v indent hind
    have hkvs := costMembers_le_length gap hgap kvs indent sepWs hind
    cases kvs with
    | nil =>
      simp only [costMembers, serializeMembers, joinWith, List.length_append]
      omega
    | cons kv' kvs' =>
      obtain ⟨k', v'⟩ := kv'
      simp only [costMembers, serializeMembers, joinWith, List.length_append,
        List.length_cons] at hkvs ⊢
      omega
end

/-- JSON.parse undoes JSON.stringify on every value of the embedding, for every indentation. -/
theorem jsonParse_stringifyValue (v : Json) (space : Nat) (hwf : v.wf = true) :
    jsonParse (stringifyValue v space) = some v := by
  have hgap : ∀ c ∈ List.replicate (min space 10) ' ', isWs c = true := by
    intro c hc
    rw [List.eq_of_mem_replicate hc]
    decide
  have hcost := cost_le_length _ hgap v [] (by simp)
  have hp := parseValue_serialize _ hgap v [] []
    ((serializeJSONProperty (List.replicate (min space 10) ' ') [] v).length + 1)
    (by simp) hwf (by omega) rfl
  rw [List.append_nil] at hp
  simp [jsonParse, stringifyValue, hp, skipWs]

theorem wfMembers_lookupKey (name : String) (members : List (String × Json)) (v : Json)
    (hwf : wfMembers members = true) (h : lookupKey name members = some v) : v.wf = true := by
  induction members with
  | nil => simp [lookupKey] at h
  | cons kv rest ih =>
    obtain ⟨k, w⟩ := kv
    simp only [wfMembers, Bool.and_eq_true] at hwf
    unfold lookupKey at h
    split at h
    · cases h; exact hwf.1
    · exact ih hwf.2 h

theorem getProp_wf (v : JsVal) (name : String) (r : Json)
    (hwf : ∀ j, v = some j → j.wf = true) (h : getProp v name = .ok (some r)) :
    r.wf = true := by
  unfold getProp at h
  split at h
  · cases h
  · cases h
  · next members =>
    have hm := hwf _ rfl
    simp only [Json.wf, Bool.and_eq_true] at hm
    injection h with h
    exact wfMembers_lookupKey name members r hm.2 h
  · cases h

theorem lookupContract_wf (output : Json) (entry : JsVal) (hwf : output.wf = true)
    (h : lookupContract output = .ok entry) : ∀ j, entry = some j → j.wf = true := by
  intro j hj
  subst hj
  unfold lookupContract at h
  split at h
  · cases h
  · next contracts hc =>
    split at h
    · cases h
    · next file hf =>
      have h1 : ∀ j, contracts = some j → j.wf = true := by
        intro j hj; subst hj
        exact getProp_wf _ _ _ (fun j hj => by cases hj; exact hwf) hc
      have h2 : ∀ j, file = some j → j.wf = true := by
        intro j hj; subst hj
        exact getProp_wf _ _ _ h1 hf
      exact getProp_wf _ _ _ h2 h

/-- C3: after a successful run on a compiler output of the embedding, parsing the content of
`Counter.abi` as JSON gives back the `abi` value of the target entry, elements and members in
the same order: the content is the 2-space-indented serialisation of that value, and JSON.parse
undoes this serialisation on every value of the embedding. -/
theorem abi_round_trip (dirname : Path) (oracle : String → Option Json) (fs : FileSystem)
    (source : String) (output : Json)
    (hread : readFileSync fs (contractPath dirname) = .ok source)
    (horacle : oracle (compilerRequest source) = some output)
    (hwf : output.wf = true)
    (hsuccess : (run dirname oracle fs).completion = .normal) :
    (∃ entry abi text r, lookupContract output = .ok entry
        ∧ getProp entry "abi" = .ok (some abi)
        ∧ stat (run dirname oracle fs).fs (abiPath dirname) = some (.file text r true)
        ∧ text = stringifyValue abi 2
        ∧ jsonParse text = some abi)
      ∧ ∀ v : Json, v.wf = true → jsonParse (stringifyValue v 2) = some v := by
  refine ⟨?_, fun v hv => jsonParse_stringifyValue v 2 hv⟩
  obtain ⟨source', output', errors, contractData, fs1, abi, fs2, code, fs3, hread', horacle',
    -, -, hlook, -, -, habi, hw1, -, hw2, hrun⟩ := run_normal_inv dirname oracle fs hsuccess
  rw [hread] at hread'
  cases hread'
  rw [horacle] at horacle'
  cases horacle'
  obtain ⟨text, r1, hdata1, hfs2⟩ := writeFileSync_ok_inv _ _ _ _ hw1
  obtain ⟨bytes, r2, -, hfs3⟩ := writeFileSync_ok_inv _ _ _ _ hw2
  obtain ⟨j, hj, htext⟩ := jsonStringify_eq_str _ _ _ hdata1
  subst hj
  have hjwf : j.wf = true :=
    getProp_wf contractData "abi" j (lookupContract_wf output contractData hwf hlook) habi
  refine ⟨contractData, j, text, r1, hlook, habi, ?_, htext, ?_⟩
  · rw [hrun]
    simp only
    rw [hfs3, stat_set _ _ _ _ (binPath_ne_nil dirname),
      if_neg (fun h => abiPath_ne_binPath dirname h.symm), hfs2,
      stat_set _ _ _ _ (abiPath_ne_nil dirname)]
    simp
  · rw [htext]
    exact jsonParse_stringifyValue j 2 hjwf

theorem abi_round_trip_witness :
    (∃ entry abi text r, lookupContract sampleOutput = .ok entry
        ∧ getProp entry "abi" = .ok (some abi)
        ∧ stat (run sampleDirname (fun _ => some sampleOutput) sampleFs).fs
            (abiPath sampleDirname) = some (.file text r true)
        ∧ text = stringifyValue abi 2
        ∧ jsonParse text = some abi)
      ∧ ∀ v : Json, v.wf = true → jsonParse (stringifyValue v 2) = some v :=
  abi_round_trip sampleDirname (fun _ => some sampleOutput) sampleFs
    "contract SimpleCounter {}" sampleOutput rfl rfl (by decide) rfl

end CompileSol
